import Mathlib

/-!
Verification of the `RouteExplorer` crawl orchestrator and navigation-hierarchy
aggregator (`src/routeExplorer.js` of the autowright repository).

The JavaScript code is shallowly embedded:
* strings are Lean `String`s (ASCII case-folding models `toLowerCase`);
* the platform WHATWG `URL` constructor is modelled by `URL.parse` below on the
  fragment of the URL grammar the crawler actually exercises: absolute URLs
  `scheme://host/path?search#hash` (authority form) and opaque `scheme:rest`
  forms.  Scheme and host are kept literally (the crawler only ever parses
  already-canonical serialized URLs: `a.href` values produced by the browser
  and URLs the crawler itself assembles from an origin and a pathname); dot
  segment collapsing, userinfo and default-port elision are outside the
  modelled fragment.  A failed parse is `none`, modelling the thrown TypeError;
* the mutable `RouteExplorer` instance state is an explicit `CrawlState`
  record, and the `while` loop is a fuel-indexed iteration of a `step`
  function;
* the external browser (playwright) is an explicit oracle (`Browser`)
  supplying the outcome of `page.goto`, the collected `a.href` links and the
  result of the navigation-extraction `page.evaluate` for each visited URL.
-/

set_option maxHeartbeats 1000000

namespace RouteExplorer

/-- ASCII lower casing of one character, the fragment of JS `toLowerCase`
exercised by the crawler (URLs and menu labels). -/
def lowerC (c : Char) : Char :=
  if 65 ≤ c.toNat ∧ c.toNat ≤ 90 then Char.ofNat (c.toNat + 32) else c

/-- Lower casing of a character list. -/
def lcL (l : List Char) : List Char := l.map lowerC

/-- Lower casing of a string, modelling `s.toLowerCase()`. -/
def lowerS (s : String) : String := ⟨lcL s.data⟩

/-- Characters allowed in a URL scheme after the leading letter. -/
def schemeCharB (c : Char) : Bool :=
  c.isAlpha || c.isDigit || c == '+' || c == '-' || c == '.'

/-- A host character: anything up to the first path, query or fragment
delimiter. -/
def hostOkB (c : Char) : Bool := !(c == '/' || c == '?' || c == '#')

/-- A path character: anything up to the first query or fragment delimiter. -/
def pathOkB (c : Char) : Bool := !(c == '?' || c == '#')

/-- A search (query) character: anything up to the fragment delimiter. -/
def searchOkB (c : Char) : Bool := !(c == '#')

/-- Split a character list at the first ':' provided everything before it is
made of scheme characters; returns the scheme (without the colon) and the
remainder. -/
def splitScheme : List Char → Option (List Char × List Char)
  | [] => none
  | c :: cs =>
    if c == ':' then some ([], cs)
    else if schemeCharB c then
      match splitScheme cs with
      | some (s, r) => some (c :: s, r)
      | none => none
    else none

/-- The parsed components of a URL, as exposed by the platform `URL` class. -/
structure URLRec where
  scheme : String
  host : String
  pathname : String
  search : String
  hash : String
deriving DecidableEq

/-- The special schemes for which the platform `URL` class reports a real
origin (all others report the literal string "null"). -/
def isSpecial (s : String) : Bool := s ∈ ["http", "https", "ws", "wss", "ftp"]

/-- The `origin` property of a parsed URL. -/
def URLRec.origin (r : URLRec) : String :=
  if isSpecial r.scheme && !(r.host == "") then r.scheme ++ "://" ++ r.host
  else "null"

/-- The opaque-path form `scheme:rest` (no authority): empty host, origin
"null". -/
def parseOpaque (s rest : List Char) : Option URLRec :=
  some ⟨⟨s⟩, "", ⟨rest.takeWhile pathOkB⟩,
        ⟨(rest.dropWhile pathOkB).takeWhile searchOkB⟩,
        ⟨(rest.dropWhile pathOkB).dropWhile searchOkB⟩⟩

/-- Parse a character list as an absolute URL; `none` models the TypeError
thrown by `new URL(...)` on input that is not an absolute URL. -/
def parseChars (l : List Char) : Option URLRec :=
  match splitScheme l with
  | none => none
  | some (s, rest) =>
    match s with
    | [] => none
    | c0 :: _ =>
      if c0.isAlpha then
        match rest with
        | c1 :: c2 :: rest2 =>
          if c1 = '/' ∧ c2 = '/' then
            if (rest2.takeWhile hostOkB).isEmpty then none
            else
              some ⟨⟨s⟩, ⟨rest2.takeWhile hostOkB⟩,
                    ⟨if ((rest2.dropWhile hostOkB).takeWhile pathOkB).isEmpty then ['/']
                      else (rest2.dropWhile hostOkB).takeWhile pathOkB⟩,
                    ⟨((rest2.dropWhile hostOkB).dropWhile pathOkB).takeWhile searchOkB⟩,
                    ⟨((rest2.dropWhile hostOkB).dropWhile pathOkB).dropWhile searchOkB⟩⟩
          else parseOpaque s (c1 :: c2 :: rest2)
        | _ => parseOpaque s rest
      else none

/-- `new URL(u)` as an Option-valued function on strings. -/
def URL.parse (u : String) : Option URLRec := parseChars u.data

/-- `normalize(url)` of `RouteExplorer`: `new URL(url).pathname`; `none`
models the propagated parse error on non-URL input. -/
def normalize (u : String) : Option String := (URL.parse u).map (·.pathname)

/-- Total variant of `normalize` used inside the crawl step; on the crawl's
reachable inputs (queue elements and collected links, all parseable absolute
URLs — proved as an invariant below) it agrees with `normalize`. -/
def pathOr (u : String) : String :=
  match URL.parse u with
  | some r => r.pathname
  | none => u

/-- `isInternal(url)`: true iff the URL parses and its origin equals the
exploration domain; a parse failure is caught and yields `false`. -/
def isInternal (domain : String) (u : String) : Bool :=
  match URL.parse u with
  | some r => r.origin == domain
  | none => false

/-- The logout pattern list of `shouldSkipRoute`, verbatim from the source
(note `/exit`, `/quit`, `/disconnect` carry a leading slash, and `logout`
appears twice). -/
def logoutPatterns : List String :=
  ["logout", "logout", "sign-out", "signout",
   "sign_out", "/exit", "/quit", "/disconnect",
   "end-session", "endsession", "terminate"]

/-- `shouldSkipRoute(url)`: some pattern occurs as a substring of the
lower-cased URL. -/
def shouldSkipRoute (u : String) : Bool :=
  logoutPatterns.any (fun p => decide (p.data <:+: lcL u.data))

/-- The constructor options of `RouteExplorer` (we model the numeric options
as `Option Nat`; `none` is an absent option, and JS `||` also replaces an
explicit `0` by the default because `0` is falsy). -/
structure ExplorerOptions where
  baseUrl : String
  startUrl : String
  maxPages : Option Nat
  maxRetries : Option Nat
deriving DecidableEq

/-- JS `options.x || d` for a numeric option: both `undefined` and `0` fall
back to the default. -/
def orD : Option Nat → Nat → Nat
  | none, d => d
  | some 0, d => d
  | some n, _ => n

/-- The configuration fields the constructor stores on the instance. -/
structure ExplorerCfg where
  baseUrl : String
  startUrl : String
  explorationDomain : String
  maxPages : Nat
  maxRetries : Nat
deriving DecidableEq

/-- The `RouteExplorer` constructor: stores the options and derives
`explorationDomain = new URL(startUrl).origin`; `none` models the constructor
throwing on an unparseable start URL. -/
def mkExplorer (o : ExplorerOptions) : Option ExplorerCfg :=
  (URL.parse o.startUrl).map fun r =>
    ⟨o.baseUrl, o.startUrl, r.origin, orD o.maxPages 20, orD o.maxRetries 2⟩

/-! ### Navigation data and the hierarchy aggregator -/

/-- One anchor item collected from a main navigation container. -/
structure NavItem where
  text : String
  href : String
  isActive : Bool
deriving DecidableEq

/-- One nested anchor collected under a sidebar item. -/
structure SubItem where
  text : String
  href : String
  parent : String
deriving DecidableEq

/-- One top-level sidebar item with its nested sub-items. -/
structure SideItem where
  text : String
  href : String
  isActive : Bool
  subItems : List SubItem
deriving DecidableEq

/-- The per-page snapshot produced by the `page.evaluate` extraction script;
`mainMenus` and `sidebarMenus` keep only the item lists of each matched
container (the aggregator never reads the `selector`/`index` bookkeeping
fields). -/
structure NavData where
  mainMenus : List (List NavItem)
  sidebarMenus : List (List SideItem)
  breadcrumbs : List (String × Option String)
  currentPage : String
deriving DecidableEq

/-- An aggregated sub-menu entry. -/
structure SubGroup where
  subMenuName : String
  routes : List String
  parent : String
deriving DecidableEq

/-- A menu group while it is being accumulated (JS object with `Set`/`Map`
fields, modelled as insertion-ordered duplicate-free lists / assoc lists). -/
structure MenuGroupAcc where
  menuName : String
  menuType : String
  routes : List String
  subMenus : List (String × SubGroup)
  pages : List String
  isNavigationMenu : Bool
deriving DecidableEq

/-- A materialized menu group as emitted in the final report. -/
structure MenuGroupOut where
  menuName : String
  menuType : String
  routes : List String
  subMenus : List SubGroup
  routeCount : Nat
  isNavigationMenu : Bool
deriving DecidableEq

/-- JS `Set.prototype.add`: append when absent, keep insertion order. -/
def addSet (l : List String) (x : String) : List String :=
  if x ∈ l then l else l ++ [x]

/-- JS `Map.prototype.get` (insertion-ordered assoc list). -/
def lookupA {α : Type} : List (String × α) → String → Option α
  | [], _ => none
  | (k', v) :: t, k => if k' = k then some v else lookupA t k

/-- JS `Map.prototype.set`: replace in place when the key exists (keeping its
insertion position), append otherwise. -/
def putA {α : Type} : List (String × α) → String → α → List (String × α)
  | [], k, v => [(k, v)]
  | (k', v') :: t, k, v =>
    if k' = k then (k, v) :: t else (k', v') :: putA t k v

/-- The JS idiom `if (!m.has(k)) m.set(k, init); mutate(m.get(k))`. -/
def upsertA {α : Type} (m : List (String × α)) (k : String) (init : α)
    (f : α → α) : List (String × α) :=
  match lookupA m k with
  | some v => putA m k (f v)
  | none => m ++ [(k, f init)]

/-- Strip leading and trailing whitespace, modelling `String.prototype.trim`. -/
def trimL (l : List Char) : List Char :=
  ((l.dropWhile Char.isWhitespace).reverse.dropWhile Char.isWhitespace).reverse

/-- The grouping key of a menu label: `text.toLowerCase().trim()`. -/
def menuKey (t : String) : String := ⟨trimL (lcL t.data)⟩

/-- The group object created on first sighting of a label. -/
def freshGroup (t : String) : MenuGroupAcc := ⟨t, "main", [], [], [], true⟩

/-- The accumulator of `organizeMenuHierarchy`: the `menuGroups` map and the
`allMenuItems` set. -/
structure AggSt where
  groups : List (String × MenuGroupAcc)
  allMenuItems : List String
deriving DecidableEq

/-- Fold one main-menu item into the accumulator. -/
def addMainItem (route : String) (st : AggSt) (it : NavItem) : AggSt :=
  let k := menuKey it.text
  ⟨upsertA st.groups k (freshGroup it.text) (fun g =>
      { g with routes := addSet g.routes it.href, pages := addSet g.pages route }),
   addSet st.allMenuItems it.href⟩

/-- Fold the sub-items of one sidebar item into that item's `subMenus` map,
keyed by the sub-label's grouping key, accumulating sub-item hrefs. -/
def subFold (parentText : String) (sis : List SubItem)
    (subs : List (String × SubGroup)) : List (String × SubGroup) :=
  sis.foldl (fun acc si =>
    upsertA acc (menuKey si.text) ⟨si.text, [], parentText⟩
      (fun sg => { sg with routes := addSet sg.routes si.href })) subs

/-- Fold one sidebar item (with its sub-items) into the accumulator. -/
def addSideItem (route : String) (st : AggSt) (it : SideItem) : AggSt :=
  let k := menuKey it.text
  ⟨upsertA st.groups k (freshGroup it.text) (fun g =>
      { g with
        routes := addSet g.routes it.href
        pages := addSet g.pages route
        subMenus := subFold it.text it.subItems g.subMenus }),
   it.subItems.foldl (fun a si => addSet a si.href) st.allMenuItems⟩

/-- Fold one page's navigation snapshot into the accumulator. -/
def processPage (st : AggSt) (entry : String × NavData) : AggSt :=
  let st1 := entry.2.mainMenus.foldl
    (fun a items => items.foldl (addMainItem entry.1) a) st
  entry.2.sidebarMenus.foldl
    (fun a items => items.foldl (addSideItem entry.1) a) st1

/-- First-occurrence deduplication, the `[...new Set(list)]` idiom. -/
def dedupGo : List String → List String → List String
  | _, [] => []
  | seen, x :: xs =>
    if x ∈ seen then dedupGo seen xs else x :: dedupGo (x :: seen) xs

/-- `[...new Set(l)]`. -/
def dedupFirst (l : List String) : List String := dedupGo [] l

/-- Materialize an accumulated group into its report form. -/
def materialize (g : MenuGroupAcc) : MenuGroupOut :=
  ⟨g.menuName, g.menuType, g.routes, g.subMenus.map (·.2), g.routes.length,
   g.isNavigationMenu⟩

/-- `organizeMenuHierarchy`: fold all per-page extracts, synthesize the
standalone group from the routes claimed by no main-menu item or sub-item
(the filter against `allMenuItems`, deduplicated by the `Set` constructor),
and materialize; `routes` is the crawler's `this.routes`. -/
def organizeMenuHierarchy (navStructure : List (String × NavData))
    (routes : List String) : List MenuGroupOut :=
  (if (routes.filter (fun r =>
        !(r ∈ (navStructure.foldl processPage ⟨[], []⟩).allMenuItems : Bool))).length > 0 then
      putA (navStructure.foldl processPage ⟨[], []⟩).groups "standalone_pages"
        ⟨"Standalone Pages", "standalone",
         dedupFirst (routes.filter (fun r =>
           !(r ∈ (navStructure.foldl processPage ⟨[], []⟩).allMenuItems : Bool))),
         [], [], false⟩
    else (navStructure.foldl processPage ⟨[], []⟩).groups).map
    (fun kv => materialize kv.2)

/-! ### The crawl loop -/

/-- The error object thrown by a failed `page.goto` (message and name). -/
structure NavErr where
  message : String
  name : String
deriving DecidableEq

/-- A record pushed onto `this.failedRoutes` (the ISO timestamp, a wall-clock
value, is not modelled). -/
structure FailedRoute where
  url : String
  normalizedPath : String
  error : String
  errorType : String
  retryAttempts : Nat
deriving DecidableEq

/-- The external browser collaborator: for a URL, `navFail u a` is the outcome
of `page.goto u` when `a` prior failed attempts are recorded (`none` =
success), `links u` the collected `a.href` values and `navExtract u` the
result of the navigation-extraction `page.evaluate` (`none` = the evaluation
threw and the extractor returned null). -/
structure Browser where
  navFail : String → Nat → Option NavErr
  links : String → List String
  navExtract : String → Option NavData

/-- The mutable crawl state held on the `RouteExplorer` instance.  `succeeded`
and `navAttempts` are ghost observers (the list of URLs whose navigation
succeeded, and the total number of `page.goto` calls); they influence no
behavior. -/
structure CrawlState where
  visited : List String
  queue : List String
  routes : List String
  failedRoutes : List FailedRoute
  skippedLogoutRoutes : List String
  retryAttempts : List (String × Nat)
  navigationStructure : List (String × NavData)
  succeeded : List String
  navAttempts : Nat
deriving DecidableEq

/-- `this.retryAttempts.get(url) || 0`. -/
def getRA : List (String × Nat) → String → Nat
  | [], _ => 0
  | (k', v) :: t, k => if k' = k then v else getRA t k

/-- The fresh state at the start of `explore()` after seeding the frontier. -/
def initState (cfg : ExplorerCfg) : CrawlState :=
  ⟨[], [cfg.startUrl], [], [], [], [], [], [], 0⟩

/-- Process one collected link: drop external links, divert logout-matching
links to `skippedLogoutRoutes`, otherwise resolve the normalized path against
the exploration domain and enqueue it unless already visited. -/
def processLink (cfg : ExplorerCfg) (s : CrawlState) (link : String) : CrawlState :=
  if !(isInternal cfg.explorationDomain link) then s
  else if shouldSkipRoute link then
    { s with skippedLogoutRoutes := s.skippedLogoutRoutes ++ [link] }
  else if cfg.explorationDomain ++ pathOr link ∈ s.visited then s
  else { s with queue := s.queue ++ [cfg.explorationDomain ++ pathOr link] }

/-- One iteration of the `while` loop body: dequeue, skip if visited, else
attempt navigation; on success record the route, store the navigation extract
and process the links; on failure either retry (bounded by `maxRetries`) or
record a `FailedRoute`. -/
def step (cfg : ExplorerCfg) (b : Browser) (s : CrawlState) : CrawlState :=
  match s.queue with
  | [] => s
  | url :: rest =>
    if url ∈ s.visited then { s with queue := rest }
    else
      match b.navFail url (getRA s.retryAttempts url) with
      | none =>
        (b.links url).foldl (processLink cfg)
          (match b.navExtract url with
           | some nd =>
             { s with queue := rest, visited := url :: s.visited,
                      navAttempts := s.navAttempts + 1,
                      routes := s.routes ++ [pathOr url],
                      succeeded := s.succeeded ++ [url],
                      navigationStructure := putA s.navigationStructure (pathOr url) nd }
           | none =>
             { s with queue := rest, visited := url :: s.visited,
                      navAttempts := s.navAttempts + 1,
                      routes := s.routes ++ [pathOr url],
                      succeeded := s.succeeded ++ [url] })
      | some e =>
        if getRA s.retryAttempts url < cfg.maxRetries then
          { s with queue := rest ++ [url],
                   visited := (url :: s.visited).erase url,
                   navAttempts := s.navAttempts + 1,
                   retryAttempts := putA s.retryAttempts url (getRA s.retryAttempts url + 1) }
        else
          { s with queue := rest, visited := url :: s.visited,
                   navAttempts := s.navAttempts + 1,
                   failedRoutes := s.failedRoutes ++
                     [⟨url, pathOr url, e.message,
                       (if e.name = "" then "Unknown" else e.name),
                       getRA s.retryAttempts url + 1⟩] }

/-- The `while` guard: frontier non-empty and page budget not reached. -/
def loopCond (cfg : ExplorerCfg) (s : CrawlState) : Bool :=
  !s.queue.isEmpty && s.routes.length < cfg.maxPages

/-- Fuel-indexed iteration of the crawl loop; once the guard is false the
state is returned unchanged, so any run with enough fuel reaches the loop's
exit state. -/
def crawl (cfg : ExplorerCfg) (b : Browser) : Nat → CrawlState → CrawlState
  | 0, s => s
  | n + 1, s => if loopCond cfg s then crawl cfg b n (step cfg b s) else s

/-! ### Report assembly and `explore()` -/

/-- The report object returned by `explore()` (wall-clock timestamps are not
modelled). -/
structure Report where
  baseUrl : String
  explorationDomain : String
  discoveredRoutes : List String
  failedRoutes : List FailedRoute
  skippedLogoutRoutes : List String
  navigationStructure : List MenuGroupOut
  totalMenus : Nat
  mainMenus : Nat
  standalonePages : Nat
  totalSubMenus : Nat
  navigationPagesScanned : Nat
  cfgMaxRetries : Nat
  successful : Nat
  failed : Nat
  skippedLogout : Nat
  total : Nat
deriving DecidableEq

/-- Assemble the output object from the final crawl state. -/
def buildReport (cfg : ExplorerCfg) (s : CrawlState) : Report :=
  let menuHierarchy := organizeMenuHierarchy s.navigationStructure s.routes
  ⟨cfg.baseUrl, cfg.explorationDomain, s.routes, s.failedRoutes,
   dedupFirst s.skippedLogoutRoutes, menuHierarchy,
   menuHierarchy.length,
   (menuHierarchy.filter (fun m => m.menuType == "main")).length,
   (menuHierarchy.filter (fun m => m.menuType == "standalone")).length,
   menuHierarchy.foldl (fun sum menu => sum + menu.subMenus.length) 0,
   s.navigationStructure.length,
   cfg.maxRetries,
   s.routes.length, s.failedRoutes.length, s.skippedLogoutRoutes.length,
   s.routes.length + s.failedRoutes.length⟩

/-- Failure injection for the session-setup calls (`chromium.launch`,
`browser.newContext`, `context.newPage`); `some e` makes the corresponding
call throw `e` (e.g. `newContext` throws when `storageState` names an invalid
file). -/
structure SessionOracle where
  launchFail : Option String
  contextFail : Option String
  pageFail : Option String

/-- What `explore()` produced: the returned report or the propagated error,
plus whether `chromium.launch` ran and whether `browser.close()` ran. -/
structure ExploreResult where
  outcome : Except String Report
  browserLaunched : Bool
  browserClosed : Bool

/-- `explore()`: launch the browser, create a context and page, run the crawl
loop, close the browser, aggregate and return the report.  The source has no
try/finally around the body, so an error thrown after `chromium.launch`
returns from `explore` (propagates) without reaching `browser.close()`. -/
def explore (cfg : ExplorerCfg) (b : Browser) (so : SessionOracle)
    (fuel : Nat) : ExploreResult :=
  match so.launchFail with
  | some e => ⟨Except.error e, false, false⟩
  | none =>
    match so.contextFail with
    | some e => ⟨Except.error e, true, false⟩
    | none =>
      match so.pageFail with
      | some e => ⟨Except.error e, true, false⟩
      | none =>
        let s := crawl cfg b fuel (initState cfg)
        ⟨Except.ok (buildReport cfg s), true, true⟩

/-! ### Basic lemmas about the container helpers -/

@[simp]
theorem mem_addSet {l : List String} {x y : String} :
    y ∈ addSet l x ↔ y ∈ l ∨ y = x := by
  unfold addSet
  split
  case isTrue h =>
    constructor
    · exact fun hy => Or.inl hy
    · rintro (hy | rfl) <;> assumption
  case isFalse h => simp

theorem subset_addSet (l : List String) (x : String) : l ⊆ addSet l x := by
  intro y hy; simp [hy]

theorem self_mem_addSet (l : List String) (x : String) : x ∈ addSet l x := by
  simp

@[simp]
theorem lookupA_putA_self {α : Type} (m : List (String × α)) (k : String) (v : α) :
    lookupA (putA m k v) k = some v := by
  induction m with
  | nil => simp [putA, lookupA]
  | cons kv t ih =>
    obtain ⟨k', v'⟩ := kv
    by_cases h : k' = k <;> simp [putA, lookupA, h, ih]

@[simp]
theorem lookupA_putA_ne {α : Type} (m : List (String × α)) {k k' : String}
    (v : α) (h : k ≠ k') : lookupA (putA m k v) k' = lookupA m k' := by
  induction m with
  | nil => simp [putA, lookupA, h]
  | cons kv t ih =>
    obtain ⟨k0, v0⟩ := kv
    by_cases h0 : k0 = k
    · subst h0; simp [putA, lookupA, h]
    · simp [putA, lookupA, h0, ih]

theorem lookupA_upsertA_self {α : Type} (m : List (String × α)) (k : String)
    (init : α) (f : α → α) :
    lookupA (upsertA m k init f) k =
      some (f ((lookupA m k).getD init)) := by
  unfold upsertA
  cases hm : lookupA m k with
  | some v => simp [hm]
  | none =>
    simp only [hm, Option.getD]
    induction m with
    | nil => simp [lookupA]
    | cons kv t ih =>
      obtain ⟨k0, v0⟩ := kv
      by_cases h0 : k0 = k
      · simp [lookupA, h0] at hm
      · simp [lookupA, h0] at hm ⊢
        exact ih hm

theorem lookupA_upsertA_ne {α : Type} (m : List (String × α)) {k k' : String}
    (init : α) (f : α → α) (h : k ≠ k') :
    lookupA (upsertA m k init f) k' = lookupA m k' := by
  unfold upsertA
  cases hm : lookupA m k with
  | some v => simp [h]
  | none =>
    induction m with
    | nil => simp [lookupA, h]
    | cons kv t ih =>
      obtain ⟨k0, v0⟩ := kv
      by_cases h0 : k0 = k
      · simp [lookupA, h0] at hm
      · simp [lookupA, h0] at hm ⊢
        by_cases h1 : k0 = k'
        · simp [h1]
        · simp [h1]; exact ih hm

theorem getRA_putA_self (m : List (String × Nat)) (k : String) (v : Nat) :
    getRA (putA m k v) k = v := by
  induction m with
  | nil => simp [putA, getRA]
  | cons kv t ih =>
    obtain ⟨k', v'⟩ := kv
    by_cases h : k' = k <;> simp [putA, getRA, h, ih]

theorem getRA_putA_ne (m : List (String × Nat)) {k k' : String} (v : Nat)
    (h : k ≠ k') : getRA (putA m k v) k' = getRA m k' := by
  induction m with
  | nil => simp [putA, getRA, h]
  | cons kv t ih =>
    obtain ⟨k0, v0⟩ := kv
    by_cases h0 : k0 = k
    · subst h0; simp [putA, getRA, h]
    · simp [putA, getRA, h0, ih]

theorem mem_dedupGo {seen l : List String} {y : String} :
    y ∈ dedupGo seen l ↔ y ∈ l ∧ y ∉ seen := by
  induction l generalizing seen with
  | nil => simp [dedupGo]
  | cons x xs ih =>
    by_cases hx : x ∈ seen
    · rw [dedupGo, if_pos hx, ih]
      constructor
      · rintro ⟨hy, hs⟩; exact ⟨List.mem_cons_of_mem x hy, hs⟩
      · rintro ⟨hy, hs⟩
        rcases List.mem_cons.1 hy with rfl | hy'
        · exact absurd hx hs
        · exact ⟨hy', hs⟩
    · rw [dedupGo, if_neg hx]
      constructor
      · intro hy
        rcases List.mem_cons.1 hy with rfl | hy'
        · exact ⟨List.mem_cons_self _ _, hx⟩
        · rcases ih.1 hy' with ⟨h1, h2⟩
          exact ⟨List.mem_cons_of_mem x h1,
                 fun hc => h2 (List.mem_cons_of_mem x hc)⟩
      · rintro ⟨hy, hs⟩
        rcases List.mem_cons.1 hy with rfl | hy'
        · exact List.mem_cons_self _ _
        · by_cases hyx : y = x
          · subst hyx; exact List.mem_cons_self _ _
          · exact List.mem_cons_of_mem x
              (ih.2 ⟨hy', by simp [List.mem_cons, hyx, hs]⟩)

theorem nodup_dedupGo (seen l : List String) : (dedupGo seen l).Nodup := by
  induction l generalizing seen with
  | nil => simp [dedupGo]
  | cons x xs ih =>
    by_cases hx : x ∈ seen
    · simpa [dedupGo, if_pos hx] using ih seen
    · simp only [dedupGo, if_neg hx, List.nodup_cons]
      refine ⟨fun hc => ?_, ih (x :: seen)⟩
      rcases mem_dedupGo.1 hc with ⟨_, hs⟩
      simp at hs

@[simp]
theorem mem_dedupFirst {l : List String} {y : String} :
    y ∈ dedupFirst l ↔ y ∈ l := by
  simp [dedupFirst, mem_dedupGo]

theorem nodup_dedupFirst (l : List String) : (dedupFirst l).Nodup :=
  nodup_dedupGo [] l

theorem count_dedupFirst_le_one (l : List String) (y : String) :
    (dedupFirst l).count y ≤ 1 :=
  List.nodup_iff_count_le_one.1 (nodup_dedupFirst l) y

/-! ### Lemmas about `takeWhile`/`dropWhile` splits -/

theorem takeWhile_all {f : Char → Bool} {l : List Char}
    (h : ∀ c ∈ l, f c = true) : l.takeWhile f = l := by
  induction l with
  | nil => rfl
  | cons c t ih =>
    simp only [List.takeWhile_cons, h c (by simp)]
    simp [ih fun c hc => h c (by simp [hc])]

theorem dropWhile_all {f : Char → Bool} {l : List Char}
    (h : ∀ c ∈ l, f c = true) : l.dropWhile f = [] := by
  induction l with
  | nil => rfl
  | cons c t ih =>
    simp only [List.dropWhile_cons, h c (by simp)]
    simp [ih fun c hc => h c (by simp [hc])]

theorem takeWhile_app_stop {f : Char → Bool} {l₁ : List Char} {c : Char}
    (t : List Char) (h : ∀ a ∈ l₁, f a = true) (hc : f c = false) :
    (l₁ ++ c :: t).takeWhile f = l₁ := by
  induction l₁ with
  | nil => simp [List.takeWhile_cons, hc]
  | cons a l ih =>
    simp only [List.cons_append, List.takeWhile_cons, h a (by simp)]
    simp [ih fun a ha => h a (by simp [ha])]

theorem dropWhile_app_stop {f : Char → Bool} {l₁ : List Char} {c : Char}
    (t : List Char) (h : ∀ a ∈ l₁, f a = true) (hc : f c = false) :
    (l₁ ++ c :: t).dropWhile f = c :: t := by
  induction l₁ with
  | nil => simp [List.dropWhile_cons, hc]
  | cons a l ih =>
    simp only [List.cons_append, List.dropWhile_cons, h a (by simp)]
    simp [ih fun a ha => h a (by simp [ha])]

theorem dropWhile_head_false {f : Char → Bool} {l t : List Char} {c : Char}
    (h : l.dropWhile f = c :: t) : f c = false := by
  induction l with
  | nil => simp [List.dropWhile] at h
  | cons a l ih =>
    rw [List.dropWhile_cons] at h
    by_cases ha : f a = true
    · rw [if_pos ha] at h; exact ih h
    · rw [if_neg ha] at h
      cases h
      simpa using ha

/-! ### Characterization of the URL parser -/

theorem strApp_data (a b : String) : (a ++ b).data = a.data ++ b.data := rfl

theorem lcL_append (a b : List Char) : lcL (a ++ b) = lcL a ++ lcL b :=
  List.map_append lowerC a b

theorem lcL_pfx {a b : List Char} (h : a <+: b) : lcL a <+: lcL b := by
  obtain ⟨t, rfl⟩ := h
  exact ⟨lcL t, (lcL_append a t).symm⟩

theorem schemeCharB_ne_colon {c : Char} (h : schemeCharB c = true) :
    (c == ':') = false := by
  cases hc : (c == ':')
  · rfl
  · exfalso
    have hcc : c = ':' := beq_iff_eq.1 hc
    rw [hcc] at h
    exact absurd h (by decide)

theorem splitScheme_eq {l s rest : List Char}
    (h : splitScheme l = some (s, rest)) :
    l = s ++ ':' :: rest ∧ ∀ c ∈ s, schemeCharB c = true := by
  induction l generalizing s with
  | nil => simp [splitScheme] at h
  | cons c cs ih =>
    rw [splitScheme] at h
    by_cases hc : (c == ':') = true
    · rw [if_pos hc] at h
      cases h
      exact ⟨by rw [beq_iff_eq.1 hc]; rfl, by simp⟩
    · rw [if_neg hc] at h
      by_cases hs : schemeCharB c = true
      · rw [if_pos hs] at h
        cases hsp : splitScheme cs with
        | none => rw [hsp] at h; cases h
        | some pr =>
          obtain ⟨s', r'⟩ := pr
          rw [hsp] at h
          cases h
          obtain ⟨he, hall⟩ := ih hsp
          refine ⟨by rw [he]; rfl, ?_⟩
          intro a ha
          rcases List.mem_cons.1 ha with rfl | ha'
          · exact hs
          · exact hall a ha'
      · rw [if_neg hs] at h; cases h

theorem splitScheme_build {s : List Char} (rest : List Char)
    (h : ∀ c ∈ s, schemeCharB c = true) :
    splitScheme (s ++ ':' :: rest) = some (s, rest) := by
  induction s with
  | nil => simp [splitScheme]
  | cons c cs ih =>
    have hc := h c (by simp)
    rw [List.cons_append, splitScheme, if_neg (by simp [schemeCharB_ne_colon hc]),
        if_pos hc, ih fun a ha => h a (by simp [ha])]

theorem strMk_append (a b : List Char) : (⟨a⟩ ++ ⟨b⟩ : String) = ⟨a ++ b⟩ := rfl

theorem colonSlashSlash : ("://" : String) = ⟨[':', '/', '/']⟩ := by decide

theorem char_slash_of_stops {c : Char} (h1 : hostOkB c = false)
    (h2 : pathOkB c = true) : c = '/' := by
  simp only [hostOkB, Bool.not_eq_false', Bool.or_eq_true, beq_iff_eq] at h1
  simp only [pathOkB, Bool.not_eq_eq_eq_not, Bool.not_true, Bool.or_eq_false_iff,
    beq_eq_false_iff_ne, ne_eq] at h2
  rcases h1 with (h | h) | h
  · exact h
  · exact absurd h h2.1
  · exact absurd h h2.2

theorem parseOpaque_origin_null {s rest : List Char} {r : URLRec}
    (hp : parseOpaque s rest = some r) : r.origin = "null" := by
  unfold parseOpaque at hp
  cases hp
  unfold URLRec.origin
  simp

/-- Full characterization of a successful parse with a real (non-"null")
origin: the input decomposes as `scheme://host` followed by the remainder,
and the pathname is the maximal query/fragment-free prefix of the remainder
(or "/" when that prefix is empty). -/
theorem parseChars_special {l : List Char} {r : URLRec}
    (hp : parseChars l = some r) (ho : r.origin ≠ "null") :
    ∃ s h after,
      l = s ++ ':' :: '/' :: '/' :: h ++ after ∧
      r.scheme = ⟨s⟩ ∧ r.host = ⟨h⟩ ∧
      (∀ c ∈ s, schemeCharB c = true) ∧
      (∃ c0 t0, s = c0 :: t0 ∧ c0.isAlpha = true) ∧
      h ≠ [] ∧ (∀ c ∈ h, hostOkB c = true) ∧
      isSpecial ⟨s⟩ = true ∧
      (∀ c t, after = c :: t → hostOkB c = false) ∧
      ((r.pathname.data = after.takeWhile pathOkB ∧ after.takeWhile pathOkB ≠ []) ∨
        (r.pathname.data = ['/'] ∧ after.takeWhile pathOkB = [])) ∧
      (∀ c ∈ r.pathname.data, pathOkB c = true) ∧
      r.origin = ⟨s ++ ':' :: '/' :: '/' :: h⟩ := by
  unfold parseChars at hp
  split at hp
  · cases hp
  next s rest heq =>
    split at hp
    · cases hp
    next c0 t0 =>
      split at hp
      · split at hp
        next c1 c2 rest2 =>
          split at hp
          next hcc =>
            obtain ⟨rfl, rfl⟩ := hcc
            split at hp
            · cases hp
            next hne =>
              obtain ⟨hl, hall⟩ := splitScheme_eq heq
              cases hp
              have hhost : ¬ rest2.takeWhile hostOkB = [] := by
                intro hnil
                rw [List.isEmpty_iff] at hne
                exact hne hnil
              have horigin :
                  isSpecial ⟨c0 :: t0⟩ = true := by
                by_contra hns
                apply ho
                unfold URLRec.origin
                have : isSpecial ⟨c0 :: t0⟩ = false := by
                  cases hx : isSpecial ⟨c0 :: t0⟩
                  · rfl
                  · exact absurd hx hns
                simp [this]
              refine ⟨c0 :: t0, rest2.takeWhile hostOkB, rest2.dropWhile hostOkB,
                ?_, rfl, rfl, hall, ⟨c0, t0, rfl, by assumption⟩, hhost,
                ?_, horigin, ?_, ?_, ?_, ?_⟩
              · rw [hl]
                simp [List.cons_append, List.takeWhile_append_dropWhile]
              · intro c hc
                exact List.mem_takeWhile_imp hc
              · intro c t hct
                exact dropWhile_head_false hct
              · by_cases hpe : (rest2.dropWhile hostOkB).takeWhile pathOkB = []
                · right
                  constructor
                  · simp only [List.isEmpty_iff, hpe, if_pos]
                  · exact hpe
                · left
                  constructor
                  · have : ((rest2.dropWhile hostOkB).takeWhile pathOkB).isEmpty = false := by
                      rw [List.isEmpty_eq_false_iff_exists_mem]
                      rcases List.exists_mem_of_ne_nil _ hpe with ⟨a, ha⟩
                      exact ⟨a, ha⟩
                    simp only [this, Bool.false_eq_true, if_neg]
                    rfl
                  · exact hpe
              · intro c hc
                by_cases hpe : (rest2.dropWhile hostOkB).takeWhile pathOkB = []
                · simp only [List.isEmpty_iff, hpe, if_pos] at hc
                  rcases List.mem_singleton.1 hc with rfl
                  decide
                · have : ((rest2.dropWhile hostOkB).takeWhile pathOkB).isEmpty = false := by
                    rw [List.isEmpty_eq_false_iff_exists_mem]
                    rcases List.exists_mem_of_ne_nil _ hpe with ⟨a, ha⟩
                    exact ⟨a, ha⟩
                  simp only [this, Bool.false_eq_true, if_neg] at hc
                  exact List.mem_takeWhile_imp hc
              · unfold URLRec.origin
                have hh : (String.mk (rest2.takeWhile hostOkB) == "") = false := by
                  rw [beq_eq_false_iff_ne]
                  intro hcon
                  apply hhost
                  have := congrArg String.data hcon
                  simpa using this
                simp only [horigin, hh, Bool.not_false, Bool.true_and, if_true]
                rw [colonSlashSlash, strMk_append, strMk_append]
                congr 1
                simp
          next hcc =>
            -- opaque-path branch: host is empty, so the origin is "null"
            exact absurd (parseOpaque_origin_null hp) ho
        next hnm =>
          exact absurd (parseOpaque_origin_null hp) ho
      · cases hp

/-- Rebuilding a URL string from scheme, host and a slash-headed clean path
parses back to exactly those components. -/
theorem parseChars_build (s h p : List Char)
    (hs : ∀ c ∈ s, schemeCharB c = true)
    (hsa : ∃ c0 t0, s = c0 :: t0 ∧ c0.isAlpha = true)
    (hh : h ≠ []) (hhok : ∀ c ∈ h, hostOkB c = true)
    (hp0 : ∃ t, p = '/' :: t) (hpok : ∀ c ∈ p, pathOkB c = true) :
    parseChars (s ++ ':' :: '/' :: '/' :: (h ++ p)) = some ⟨⟨s⟩, ⟨h⟩, ⟨p⟩, "", ""⟩ := by
  obtain ⟨c0, t0, rfl, ha⟩ := hsa
  obtain ⟨t, rfl⟩ := hp0
  unfold parseChars
  rw [splitScheme_build ('/' :: '/' :: (h ++ '/' :: t)) hs]
  dsimp only
  rw [if_pos ha]
  rw [if_pos (⟨rfl, rfl⟩ : ('/' : Char) = '/' ∧ ('/' : Char) = '/')]
  rw [takeWhile_app_stop t hhok (by decide), dropWhile_app_stop t hhok (by decide)]
  rw [if_neg (by simpa [List.isEmpty_iff] using hh)]
  rw [takeWhile_all hpok, dropWhile_all hpok]
  rw [if_neg (by simp)]
  rfl

theorem parse_head_alpha {l : List Char} {r : URLRec}
    (hp : parseChars l = some r) :
    ∃ c0 t0, l = c0 :: t0 ∧ c0.isAlpha = true := by
  unfold parseChars at hp
  split at hp
  · cases hp
  next s rest heq =>
    split at hp
    · cases hp
    next c0 t0 =>
      split at hp
      next ha =>
        obtain ⟨hl, _⟩ := splitScheme_eq heq
        exact ⟨c0, t0 ++ ':' :: rest, by simpa using hl, ha⟩
      · cases hp

theorem takeWhile_eq_cons_head {f : Char → Bool} {l t : List Char} {c : Char}
    (h : l.takeWhile f = c :: t) : (∃ t2, l = c :: t2) ∧ f c = true := by
  cases l with
  | nil => simp at h
  | cons a l2 =>
    rw [List.takeWhile_cons] at h
    by_cases hfa : f a = true
    · rw [if_pos hfa] at h
      injection h with h1 h2
      subst h1
      exact ⟨⟨l2, rfl⟩, hfa⟩
    · rw [if_neg hfa] at h
      cases h

theorem parse_pathname_slash {l : List Char} {r : URLRec}
    (hp : parseChars l = some r) (ho : r.origin ≠ "null") :
    ∃ t, r.pathname.data = '/' :: t := by
  obtain ⟨s, h, after, _, _, _, _, _, _, _, _, hstop, hdisj, hpok, _⟩ :=
    parseChars_special hp ho
  rcases hdisj with ⟨hpath, hne⟩ | ⟨hpath, _⟩
  · have hnn : r.pathname.data ≠ [] := by rw [hpath]; exact hne
    obtain ⟨c, t', hct⟩ := List.exists_cons_of_ne_nil hnn
    obtain ⟨⟨t2, hafter⟩, hfc⟩ := takeWhile_eq_cons_head (hpath.symm.trans hct)
    have hcs : c = '/' := char_slash_of_stops (hstop c t2 hafter) hfc
    exact ⟨t', by rw [hct, hcs]⟩
  · exact ⟨[], hpath⟩

/-- Re-parsing `origin ++ pathname` of a successfully parsed URL with a real
origin recovers the same scheme, host and pathname (and no query/fragment). -/
theorem parse_origin_pathname {u : String} {r : URLRec}
    (hp : URL.parse u = some r) (ho : r.origin ≠ "null") :
    URL.parse (r.origin ++ r.pathname) = some ⟨r.scheme, r.host, r.pathname, "", ""⟩ := by
  obtain ⟨s, h, after, hl, hsch, hhost, hs, hsa, hh, hhok, hspec, hstop, hdisj, hpok, horig⟩ :=
    parseChars_special hp ho
  have hslash := parse_pathname_slash hp ho
  have hdata : (r.origin ++ r.pathname).data = s ++ ':' :: '/' :: '/' :: (h ++ r.pathname.data) := by
    rw [strApp_data, horig]
    simp [List.cons_append, List.append_assoc]
  unfold URL.parse
  rw [hdata, parseChars_build s h r.pathname.data hs hsa hh hhok hslash hpok]
  rw [hsch, hhost]

theorem parse_origin_of_build {s h p : List Char}
    (hs : ∀ c ∈ s, schemeCharB c = true) (hspec : isSpecial ⟨s⟩ = true)
    (hh : h ≠ []) :
    URLRec.origin ⟨⟨s⟩, ⟨h⟩, ⟨p⟩, "", ""⟩ = ⟨s ++ ':' :: '/' :: '/' :: h⟩ := by
  unfold URLRec.origin
  have hhb : (String.mk h == "") = false := by
    rw [beq_eq_false_iff_ne]
    intro hcon
    apply hh
    simpa using congrArg String.data hcon
  simp only [hspec, hhb, Bool.not_false, Bool.true_and, if_true]
  rw [colonSlashSlash, strMk_append, strMk_append]
  congr 1
  simp

/-! ### The logout guard only fires on resolved URLs when it fires on the raw
link -/

theorem infix_app_singleton {p A : List Char} {c : Char}
    (h : p <:+: A ++ [c]) : p <:+: A ∨ ∃ t, p = t ++ [c] := by
  obtain ⟨pre, suf, hps⟩ := h
  rcases List.eq_nil_or_concat suf with rfl | ⟨s2, a, rfl⟩
  · rcases List.eq_nil_or_concat p with rfl | ⟨t, b, rfl⟩
    · exact Or.inl List.nil_infix
    · rw [List.concat_eq_append, List.append_nil, ← List.append_assoc] at hps
      obtain ⟨h1, h2⟩ := List.append_inj' hps rfl
      cases h2
      exact Or.inr ⟨t, by rw [List.concat_eq_append]⟩
  · rw [List.concat_eq_append, ← List.append_assoc] at hps
    obtain ⟨h1, h2⟩ := List.append_inj' hps rfl
    cases h2
    exact Or.inl ⟨pre, s2, h1⟩

theorem patterns_no_slash_end {p : String} (hp : p ∈ logoutPatterns)
    {t : List Char} (h : p.data = t ++ ['/']) : False := by
  have h2 := congrArg List.getLast? h
  rw [List.getLast?_concat] at h2
  simp only [logoutPatterns, List.mem_cons, List.not_mem_nil, or_false] at hp
  rcases hp with rfl | rfl | rfl | rfl | rfl | rfl | rfl | rfl | rfl | rfl | rfl <;>
    exact absurd h2 (by decide)

/-- If a logout pattern occurs in `origin ++ pathname` of a parsed internal
link, it already occurs in the link string itself (the resolved URL the
crawler enqueues is a prefix of the canonical link, up to the possible
synthesized trailing "/"). -/
theorem shouldSkip_resolve {u : String} {r : URLRec}
    (hp : URL.parse u = some r) (ho : r.origin ≠ "null")
    (hg : shouldSkipRoute (r.origin ++ r.pathname) = true) :
    shouldSkipRoute u = true := by
  obtain ⟨s, h, after, hl, _, _, _, _, _, _, _, _, hdisj, _, horig⟩ :=
    parseChars_special hp ho
  unfold shouldSkipRoute at hg ⊢
  rw [List.any_eq_true] at hg ⊢
  obtain ⟨p, hpmem, hpdec⟩ := hg
  refine ⟨p, hpmem, ?_⟩
  have hpinf := of_decide_eq_true hpdec
  apply decide_eq_true
  have hA : (s ++ ':' :: '/' :: '/' :: h) <+: u.data := by
    rw [hl]
    exact ⟨after, by simp [List.cons_append, List.append_assoc]⟩
  have hdata : (r.origin ++ r.pathname).data =
      (s ++ ':' :: '/' :: '/' :: h) ++ r.pathname.data := by
    rw [strApp_data, horig]
  rcases hdisj with ⟨hpath, _⟩ | ⟨hpath, _⟩
  · -- pathname is a prefix of `after`, so origin ++ pathname is a prefix of u
    have hpw : after.takeWhile pathOkB <+: after := List.takeWhile_prefix pathOkB
    obtain ⟨tl, htl⟩ := hpw
    have hpref : (r.origin ++ r.pathname).data <+: u.data := by
      rw [hdata, hl, hpath]
      refine ⟨tl, ?_⟩
      simp [List.cons_append, List.append_assoc, htl]
    exact hpinf.trans (lcL_pfx hpref).isInfix
  · -- pathname is the synthesized "/"
    have hsl : lcL ['/'] = ['/'] := by decide
    rw [hdata, hpath, lcL_append, hsl] at hpinf
    rcases infix_app_singleton hpinf with hin | ⟨t, heq⟩
    · exact hin.trans (lcL_pfx hA).isInfix
    · exact (patterns_no_slash_end hpmem heq).elim

/-! ### Claim C2: the logout token set -/

/-- C2 (corrected): `shouldSkipRoute u` is true iff some token of the fixed
set occurs as a substring of the lower-cased `u` — but the tokens for exit,
quit and disconnect carry a leading slash (`/exit`, `/quit`, `/disconnect`),
so a URL containing `exit` without a preceding `/` is NOT matched. -/
theorem c2_shouldSkipRoute_iff_token (u : String) :
    shouldSkipRoute u = true ↔
      ∃ p ∈ (["logout", "sign-out", "signout", "sign_out", "/exit", "/quit",
              "/disconnect", "end-session", "endsession", "terminate"] : List String),
        p.data <:+: lcL u.data := by
  unfold shouldSkipRoute
  rw [List.any_eq_true]
  constructor
  · rintro ⟨p, hmem, hdec⟩
    refine ⟨p, ?_, of_decide_eq_true hdec⟩
    simp only [logoutPatterns, List.mem_cons, List.not_mem_nil, or_false] at hmem
    simp only [List.mem_cons, List.not_mem_nil, or_false]
    tauto
  · rintro ⟨p, hmem, hinf⟩
    refine ⟨p, ?_, decide_eq_true hinf⟩
    simp only [List.mem_cons, List.not_mem_nil, or_false] at hmem
    simp only [logoutPatterns, List.mem_cons, List.not_mem_nil, or_false]
    tauto

/-- C2 counterexample: the URL "https://a.com/myexit" contains the token
"exit" (case-insensitively), yet `shouldSkipRoute` returns false, because the
source pattern is `/exit`, not `exit`. -/
theorem c2_counterexample :
    ("exit" : String).data <:+: lcL ("https://a.com/myexit" : String).data ∧
      shouldSkipRoute "https://a.com/myexit" = false := by
  constructor
  · decide
  · decide

/-! ### Claim C9: `normalize` is not literally idempotent -/

/-- C9 counterexample: `normalize` maps "http://example.com/a" to the bare
path "/a", on which `normalize` is undefined (a bare path is not an absolute
URL), so `normalize (normalize u) = normalize u` fails. -/
theorem c9_counterexample :
    ¬ ∀ (u p : String), normalize u = some p → normalize p = some p := by
  intro hall
  have h1 : normalize "http://example.com/a" = some "/a" := by decide
  have h2 := hall "http://example.com/a" "/a" h1
  have h3 : normalize "/a" = none := by decide
  rw [h3] at h2
  cases h2

/-- C9 (corrected): `normalize` is undefined on its own output, so literal
idempotence fails; the idempotence the crawler actually relies on holds after
re-anchoring the path at the URL's origin: normalizing `origin ++ pathname`
returns exactly `pathname` again. -/
theorem c9_normalize_reanchored (u : String) (r : URLRec)
    (hp : URL.parse u = some r) (ho : r.origin ≠ "null") :
    normalize (r.origin ++ r.pathname) = some r.pathname := by
  unfold normalize
  rw [parse_origin_pathname hp ho]
  rfl

/-- Closed witness for `c9_normalize_reanchored` at a concrete URL. -/
theorem c9_witness :
    URL.parse "http://example.com/a?q=1" =
        some ⟨"http", "example.com", "/a", "?q=1", ""⟩ ∧
      normalize (URLRec.origin ⟨"http", "example.com", "/a", "?q=1", ""⟩ ++ "/a") =
        some "/a" :=
  ⟨by decide,
   c9_normalize_reanchored "http://example.com/a?q=1"
     ⟨"http", "example.com", "/a", "?q=1", ""⟩ (by decide) (by decide)⟩

/-! ### Claim C10: `isInternal` is total and origin-exact -/

/-- C10 (confirmed): `isInternal` never propagates a URL-parse error — on any
string that does not parse as an absolute URL it returns false — and it
returns true exactly when the parsed origin equals the exploration domain the
constructor derived from the start URL. -/
theorem c10_isInternal_total (o : ExplorerOptions) (cfg : ExplorerCfg)
    (hmk : mkExplorer o = some cfg) (u : String) :
    (URL.parse u = none → isInternal cfg.explorationDomain u = false) ∧
      (isInternal cfg.explorationDomain u = true ↔
        ∃ r, URL.parse u = some r ∧ r.origin = cfg.explorationDomain) := by
  constructor
  · intro hn
    unfold isInternal
    rw [hn]
  · unfold isInternal
    cases hu : URL.parse u with
    | none =>
      simp only [Bool.false_eq_true, false_iff]
      rintro ⟨r', hr', _⟩
      cases hr'
    | some r =>
      simp only [beq_iff_eq]
      constructor
      · intro h
        exact ⟨r, rfl, h⟩
      · rintro ⟨r', hr', ho⟩
        cases hr'
        exact ho

/-- Closed witness for `c10_isInternal_total`: a relative path and the empty
string yield false (no exception), and a same-origin absolute URL yields
true. -/
theorem c10_witness :
    isInternal "http://x.com" "" = false ∧
      isInternal "http://x.com" "/rel/path" = false ∧
      isInternal "http://x.com" "http://x.com/y?q=1" = true := by
  have h := c10_isInternal_total ⟨"http://auth.x.com", "http://x.com/a", none, none⟩
    ⟨"http://auth.x.com", "http://x.com/a", "http://x.com", 20, 2⟩ (by decide)
  refine ⟨(h "").1 (by decide), (h "/rel/path").1 (by decide), ?_⟩
  exact (h "http://x.com/y?q=1").2.mpr
    ⟨⟨"http", "x.com", "/y", "?q=1", ""⟩, by decide, by decide⟩

/-! ### Coverage invariant of the hierarchy aggregation (claim C1) -/

/-- The sub-menu map at key `sk` claims href `x`. -/
def subCovers (subs : List (String × SubGroup)) (sk x : String) : Prop :=
  ∃ sg, lookupA subs sk = some sg ∧ x ∈ sg.routes

/-- Some non-synthesized group (or one of its sub-menus) claims href `x`. -/
def coveredBy (x : String) (groups : List (String × MenuGroupAcc)) : Prop :=
  ∃ k g, lookupA groups k = some g ∧ k ≠ "standalone_pages" ∧
    (x ∈ g.routes ∨ ∃ sk, subCovers g.subMenus sk x)

/-- Every collected menu-item href is claimed by some group. -/
def Covered (st : AggSt) : Prop := ∀ x ∈ st.allMenuItems, coveredBy x st.groups

theorem subCovers_upsert {subs : List (String × SubGroup)} {sk x k hr : String}
    {init : SubGroup} (h : subCovers subs sk x) :
    subCovers (upsertA subs k init
      (fun sg => { sg with routes := addSet sg.routes hr })) sk x := by
  obtain ⟨sg, hl, hx⟩ := h
  by_cases hk : k = sk
  · subst hk
    refine ⟨_, lookupA_upsertA_self subs k init _, ?_⟩
    rw [hl]
    exact subset_addSet _ _ hx
  · exact ⟨sg, by rw [lookupA_upsertA_ne subs init _ hk]; exact hl, hx⟩

theorem subFold_cons (par : String) (a : SubItem) (rest : List SubItem)
    (subs : List (String × SubGroup)) :
    subFold par (a :: rest) subs =
      subFold par rest (upsertA subs (menuKey a.text) ⟨a.text, [], par⟩
        (fun sg => { sg with routes := addSet sg.routes a.href })) := rfl

theorem subCovers_subFold {par : String} {sis : List SubItem}
    {subs : List (String × SubGroup)} {sk x : String}
    (h : subCovers subs sk x) : subCovers (subFold par sis subs) sk x := by
  induction sis generalizing subs with
  | nil => exact h
  | cons a rest ih =>
    rw [subFold_cons]
    exact ih (subCovers_upsert h)

theorem subFold_covers_self {par : String} {sis : List SubItem}
    {subs : List (String × SubGroup)} :
    ∀ si ∈ sis, subCovers (subFold par sis subs) (menuKey si.text) si.href := by
  induction sis generalizing subs with
  | nil => intro si hsi; cases hsi
  | cons a rest ih =>
    intro si hsi
    rcases List.mem_cons.1 hsi with rfl | hsi'
    · rw [subFold_cons]
      apply subCovers_subFold
      refine ⟨_, lookupA_upsertA_self subs (menuKey si.text) ⟨si.text, [], par⟩ _, ?_⟩
      exact self_mem_addSet _ _
    · rw [subFold_cons]
      exact ih si hsi'

theorem coveredBy_upsert_pres {x k : String} {init : MenuGroupAcc}
    {m : List (String × MenuGroupAcc)} (f : MenuGroupAcc → MenuGroupAcc)
    (hf : ∀ g, (∀ y ∈ g.routes, y ∈ (f g).routes) ∧
      (∀ sk y, subCovers g.subMenus sk y → subCovers (f g).subMenus sk y))
    (h : coveredBy x m) : coveredBy x (upsertA m k init f) := by
  obtain ⟨k0, g0, hl, hne, hcase⟩ := h
  by_cases hk : k = k0
  · subst hk
    refine ⟨k, f ((lookupA m k).getD init), lookupA_upsertA_self m k init f, hne, ?_⟩
    have hv : (lookupA m k).getD init = g0 := by rw [hl]; rfl
    rw [hv]
    rcases hcase with hx | ⟨sk, hsc⟩
    · exact Or.inl ((hf g0).1 x hx)
    · exact Or.inr ⟨sk, (hf g0).2 sk x hsc⟩
  · exact ⟨k0, g0, by rw [lookupA_upsertA_ne m init f hk]; exact hl, hne, hcase⟩

theorem covered_addMainItem {st : AggSt} {route : String} {it : NavItem}
    (hkey : menuKey it.text ≠ "standalone_pages")
    (h : Covered st) : Covered (addMainItem route st it) := by
  intro x hx
  rcases mem_addSet.1 hx with hx' | rfl
  · exact coveredBy_upsert_pres _
      (fun g => ⟨fun y hy => subset_addSet _ _ hy, fun sk y hc => hc⟩) (h x hx')
  · refine ⟨menuKey it.text, _,
      lookupA_upsertA_self st.groups (menuKey it.text) (freshGroup it.text) _,
      hkey, Or.inl ?_⟩
    exact self_mem_addSet _ _

theorem mem_foldl_addSet {sis : List SubItem} {acc : List String} {x : String} :
    x ∈ sis.foldl (fun a si => addSet a si.href) acc ↔
      x ∈ acc ∨ ∃ si ∈ sis, x = si.href := by
  induction sis generalizing acc with
  | nil => simp
  | cons a rest ih =>
    rw [List.foldl_cons, ih]
    constructor
    · rintro (hx | ⟨si, hsi, rfl⟩)
      · rcases mem_addSet.1 hx with hx' | rfl
        · exact Or.inl hx'
        · exact Or.inr ⟨a, List.mem_cons_self _ _, rfl⟩
      · exact Or.inr ⟨si, List.mem_cons_of_mem _ hsi, rfl⟩
    · rintro (hx | ⟨si, hsi, rfl⟩)
      · exact Or.inl (subset_addSet _ _ hx)
      · rcases List.mem_cons.1 hsi with rfl | hsi'
        · exact Or.inl (self_mem_addSet _ _)
        · exact Or.inr ⟨si, hsi', rfl⟩

theorem covered_addSideItem {st : AggSt} {route : String} {it : SideItem}
    (hkey : menuKey it.text ≠ "standalone_pages")
    (h : Covered st) : Covered (addSideItem route st it) := by
  intro x hx
  rcases mem_foldl_addSet.1 hx with hx' | ⟨si, hsi, rfl⟩
  · exact coveredBy_upsert_pres _
      (fun g => ⟨fun y hy => subset_addSet _ _ hy,
                 fun sk y hc => subCovers_subFold hc⟩) (h x hx')
  · refine ⟨menuKey it.text, _,
      lookupA_upsertA_self st.groups (menuKey it.text) (freshGroup it.text) _,
      hkey, Or.inr ⟨menuKey si.text, ?_⟩⟩
    exact subFold_covers_self si hsi

theorem covered_foldl_mainItems {route : String} {items : List NavItem}
    {st : AggSt}
    (hk : ∀ it ∈ items, menuKey it.text ≠ "standalone_pages")
    (h : Covered st) : Covered (items.foldl (addMainItem route) st) := by
  induction items generalizing st with
  | nil => exact h
  | cons it its ih =>
    rw [List.foldl_cons]
    exact ih (fun a ha => hk a (List.mem_cons_of_mem _ ha))
      (covered_addMainItem (hk it (List.mem_cons_self _ _)) h)

theorem covered_foldl_sideItems {route : String} {items : List SideItem}
    {st : AggSt}
    (hk : ∀ it ∈ items, menuKey it.text ≠ "standalone_pages")
    (h : Covered st) : Covered (items.foldl (addSideItem route) st) := by
  induction items generalizing st with
  | nil => exact h
  | cons it its ih =>
    rw [List.foldl_cons]
    exact ih (fun a ha => hk a (List.mem_cons_of_mem _ ha))
      (covered_addSideItem (hk it (List.mem_cons_self _ _)) h)

theorem covered_foldl_main {route : String} {menus : List (List NavItem)}
    {st : AggSt}
    (hk : ∀ menu ∈ menus, ∀ it ∈ menu, menuKey it.text ≠ "standalone_pages")
    (h : Covered st) :
    Covered (menus.foldl (fun a items => items.foldl (addMainItem route) a) st) := by
  induction menus generalizing st with
  | nil => exact h
  | cons m rest ih =>
    rw [List.foldl_cons]
    exact ih (fun menu hm => hk menu (List.mem_cons_of_mem _ hm))
      (covered_foldl_mainItems (hk m (List.mem_cons_self _ _)) h)

theorem covered_foldl_side {route : String} {menus : List (List SideItem)}
    {st : AggSt}
    (hk : ∀ menu ∈ menus, ∀ it ∈ menu, menuKey it.text ≠ "standalone_pages")
    (h : Covered st) :
    Covered (menus.foldl (fun a items => items.foldl (addSideItem route) a) st) := by
  induction menus generalizing st with
  | nil => exact h
  | cons m rest ih =>
    rw [List.foldl_cons]
    exact ih (fun menu hm => hk menu (List.mem_cons_of_mem _ hm))
      (covered_foldl_sideItems (hk m (List.mem_cons_self _ _)) h)

theorem covered_processPage {st : AggSt} {e : String × NavData}
    (hk1 : ∀ menu ∈ e.2.mainMenus, ∀ it ∈ menu, menuKey it.text ≠ "standalone_pages")
    (hk2 : ∀ menu ∈ e.2.sidebarMenus, ∀ it ∈ menu, menuKey it.text ≠ "standalone_pages")
    (h : Covered st) : Covered (processPage st e) :=
  covered_foldl_side hk2 (covered_foldl_main hk1 h)

theorem covered_build {ns : List (String × NavData)} {st : AggSt}
    (hkeys : ∀ e ∈ ns,
      (∀ menu ∈ e.2.mainMenus, ∀ it ∈ menu, menuKey it.text ≠ "standalone_pages") ∧
      (∀ menu ∈ e.2.sidebarMenus, ∀ it ∈ menu, menuKey it.text ≠ "standalone_pages"))
    (h : Covered st) : Covered (ns.foldl processPage st) := by
  induction ns generalizing st with
  | nil => exact h
  | cons e rest ih =>
    rw [List.foldl_cons]
    exact ih (fun e' he' => hkeys e' (List.mem_cons_of_mem _ he'))
      (covered_processPage (hkeys e (List.mem_cons_self _ _)).1
        (hkeys e (List.mem_cons_self _ _)).2 h)

theorem lookupA_mem {α : Type} {m : List (String × α)} {k : String} {v : α}
    (h : lookupA m k = some v) : (k, v) ∈ m := by
  induction m with
  | nil => cases h
  | cons kv t ih =>
    obtain ⟨k0, v0⟩ := kv
    by_cases hk : k0 = k
    · subst hk
      rw [lookupA, if_pos rfl] at h
      cases h
      exact List.mem_cons_self _ _
    · rw [lookupA, if_neg hk] at h
      exact List.mem_cons_of_mem _ (ih h)

/-! ### Claim C1: union of group routes vs discovered routes -/

/-- C1 (corrected, first half): every discovered route appears in the route
set of some emitted MenuGroup or sub-menu — the standalone group picks up the
ones no main-menu item or sub-item claimed — provided no menu label's
grouping key is the literal "standalone_pages" (the synthesized group would
silently overwrite such a group, losing its routes). -/
theorem c1_union_superset (ns : List (String × NavData)) (routes : List String)
    (hkeys : ∀ e ∈ ns,
      (∀ menu ∈ e.2.mainMenus, ∀ it ∈ menu, menuKey it.text ≠ "standalone_pages") ∧
      (∀ menu ∈ e.2.sidebarMenus, ∀ it ∈ menu, menuKey it.text ≠ "standalone_pages")) :
    ∀ r ∈ routes, ∃ g ∈ organizeMenuHierarchy ns routes,
      r ∈ g.routes ∨ ∃ sm ∈ g.subMenus, r ∈ sm.routes := by
  intro r hr
  have hcov : Covered (ns.foldl processPage ⟨[], []⟩) :=
    covered_build hkeys (fun x hx => absurd hx (List.not_mem_nil x))
  unfold organizeMenuHierarchy
  by_cases hmem : r ∈ (ns.foldl processPage ⟨[], []⟩).allMenuItems
  · obtain ⟨k, g, hl, hne, hcase⟩ := hcov r hmem
    have hfin : ∀ groups2,
        lookupA groups2 k = some g →
        ∃ go ∈ groups2.map (fun kv => materialize kv.2),
          r ∈ go.routes ∨ ∃ sm ∈ go.subMenus, r ∈ sm.routes := by
      intro groups2 hl2
      refine ⟨materialize g, List.mem_map.2 ⟨(k, g), lookupA_mem hl2, rfl⟩, ?_⟩
      rcases hcase with hx | ⟨sk, sg, hsl, hsr⟩
      · exact Or.inl hx
      · exact Or.inr ⟨sg, List.mem_map.2 ⟨(sk, sg), lookupA_mem hsl, rfl⟩, hsr⟩
    split
    next hstand =>
      refine hfin _ ?_
      rw [lookupA_putA_ne _ _ (fun hc => hne hc.symm)]
      exact hl
    next hstand => exact hfin _ hl
  · have hfil : r ∈ routes.filter
        (fun r => !(r ∈ (ns.foldl processPage ⟨[], []⟩).allMenuItems : Bool)) := by
      rw [List.mem_filter]
      exact ⟨hr, by simpa using hmem⟩
    have hpos : 0 < (routes.filter
        (fun r => !(r ∈ (ns.foldl processPage ⟨[], []⟩).allMenuItems : Bool))).length :=
      List.length_pos.2 (List.ne_nil_of_mem hfil)
    rw [if_pos hpos]
    refine ⟨materialize ⟨"Standalone Pages", "standalone",
        dedupFirst (routes.filter
          (fun r => !(r ∈ (ns.foldl processPage ⟨[], []⟩).allMenuItems : Bool))),
        [], [], false⟩,
      List.mem_map.2 ⟨_, lookupA_mem (lookupA_putA_self _ "standalone_pages" _), rfl⟩,
      Or.inl ?_⟩
    exact mem_dedupFirst.2 hfil

/-- The concrete run used to refute the exact-union half of C1: the single
visited page advertises a nav item for "/ghost" which is never visited. -/
def ghostNav : NavData := ⟨[[⟨"Ghost", "/ghost", false⟩]], [], [], ""⟩

/-- Browser oracle for the C1 refutation run. -/
def ghostBrowser : Browser := ⟨fun _ _ => none, fun _ => [], fun _ => some ghostNav⟩

/-- Configuration for the C1 refutation run. -/
def ghostCfg : ExplorerCfg := ⟨"http://x.com", "http://x.com/", "http://x.com", 20, 2⟩

/-- C1 counterexample: in this run discoveredRoutes = ["/"], yet the emitted
"Ghost" menu group's route set contains "/ghost", which is not a discovered
route — so the union of group route sets is strictly larger than the set of
discovered routes. -/
theorem c1_counterexample :
    (buildReport ghostCfg (crawl ghostCfg ghostBrowser 5 (initState ghostCfg))).discoveredRoutes
        = ["/"] ∧
      ((buildReport ghostCfg (crawl ghostCfg ghostBrowser 5 (initState ghostCfg))).navigationStructure.map
        (fun g => g.routes)) = [["/ghost"], ["/"]] ∧
      ¬ (∀ g ∈ (buildReport ghostCfg (crawl ghostCfg ghostBrowser 5
            (initState ghostCfg))).navigationStructure,
          ∀ u ∈ g.routes,
            u ∈ (buildReport ghostCfg (crawl ghostCfg ghostBrowser 5
              (initState ghostCfg))).discoveredRoutes) := by
  refine ⟨by decide, by decide, ?_⟩
  intro hall
  have hg := hall ⟨"Ghost", "main", ["/ghost"], [], 1, true⟩ (by decide) "/ghost" (by decide)
  exact absurd hg (by decide)

/-- Closed witness for `c1_union_superset` at a concrete aggregation: the
unclaimed route "/" lands in the standalone group. -/
theorem c1_witness :
    ∃ g ∈ organizeMenuHierarchy
        [("/p", ⟨[[⟨"Home", "/home", false⟩]], [], [], ""⟩)] ["/", "/home"],
      "/" ∈ g.routes ∨ ∃ sm ∈ g.subMenus, "/" ∈ sm.routes :=
  c1_union_superset _ _ (by decide) "/" (by decide)

/-! ### Claim C7: merging is by (trimmed, lowercased) label, never by href -/

/-- C7 (confirmed): two pages each carrying one main-menu item whose labels
share the same grouping key (`text.toLowerCase().trim()`) produce exactly one
MenuGroup, named after the first-seen label, whose route set contains both
hrefs — merging is driven by the label key, not by the hrefs, which may
differ freely (e.g. "/dashboard" vs "/dashboard/"). -/
theorem c7_merge_by_label (t1 t2 u1 u2 p1 p2 : String) (routes : List String)
    (hk : menuKey t1 = menuKey t2) (hr : ∀ r ∈ routes, r = u1 ∨ r = u2) :
    ∃ g, organizeMenuHierarchy
        [(p1, ⟨[[⟨t1, u1, false⟩]], [], [], ""⟩),
         (p2, ⟨[[⟨t2, u2, true⟩]], [], [], ""⟩)] routes = [g] ∧
      g.menuName = t1 ∧ u1 ∈ g.routes ∧ u2 ∈ g.routes := by
  have hst : List.foldl processPage ⟨[], []⟩
      [(p1, (⟨[[⟨t1, u1, false⟩]], [], [], ""⟩ : NavData)),
       (p2, ⟨[[⟨t2, u2, true⟩]], [], [], ""⟩)] =
      ⟨[(menuKey t1, ⟨t1, "main", addSet [u1] u2, [], addSet [p1] p2, true⟩)],
       addSet [u1] u2⟩ := by
    simp only [List.foldl_cons, List.foldl_nil, processPage, addMainItem,
      upsertA, lookupA, putA, addSet, freshGroup, List.not_mem_nil, if_false,
      List.nil_append, ← hk, if_pos]
  have hfil : routes.filter (fun r => !(r ∈ addSet [u1] u2 : Bool)) = [] := by
    rw [List.filter_eq_nil_iff]
    intro a ha
    rcases hr a ha with rfl | rfl
    · have h1 : a ∈ addSet [a] u2 := subset_addSet _ _ (List.mem_singleton.2 rfl)
      simp [h1]
    · have h1 := self_mem_addSet [u1] a
      simp [h1]
  refine ⟨⟨t1, "main", addSet [u1] u2, [], (addSet [u1] u2).length, true⟩, ?_, rfl,
    subset_addSet _ _ (List.mem_singleton.2 rfl), self_mem_addSet _ _⟩
  unfold organizeMenuHierarchy
  rw [hst]
  simp only [hfil, List.length_nil, gt_iff_lt, Nat.lt_irrefl, if_false,
    List.map_cons, List.map_nil, materialize]

/-- Closed witness for `c7_merge_by_label`: the claim's Dashboard scenario
with hrefs "/dashboard" and "/dashboard/". -/
theorem c7_witness :
    ∃ g, organizeMenuHierarchy
        [("/p1", ⟨[[⟨"Dashboard", "/dashboard", false⟩]], [], [], ""⟩),
         ("/p2", ⟨[[⟨"Dashboard", "/dashboard/", true⟩]], [], [], ""⟩)]
        ["/dashboard"] = [g] ∧
      g.menuName = "Dashboard" ∧ "/dashboard" ∈ g.routes ∧ "/dashboard/" ∈ g.routes :=
  c7_merge_by_label "Dashboard" "Dashboard" "/dashboard" "/dashboard/" "/p1" "/p2"
    ["/dashboard"] rfl (by decide)

/-! ### Claim C3: the retry count for a configured `maxRetries = 0` -/

/-- A browser whose every navigation attempt fails. -/
def alwaysFailBrowser : Browser :=
  ⟨fun _ _ => some ⟨"net::ERR_TIMEOUT", ""⟩, fun _ => [], fun _ => none⟩

/-- C3 (code bug): the constructor stores `options.maxRetries || 2`, and `0`
is falsy in JS, so a configured `maxRetries = 0` is silently coerced to the
default `2`.  The run below configures `maxRetries = 0` on an always-failing
start URL: the claim demands exactly 1 navigation attempt and a FailedRoute
with `retryAttempts = 1`, but the code performs 3 attempts and records
`retryAttempts = 3` (and the frontier is empty afterwards). -/
theorem c3_maxRetries_zero_coerced :
    mkExplorer ⟨"http://x.com", "http://x.com/a", none, some 0⟩ =
        some ⟨"http://x.com", "http://x.com/a", "http://x.com", 20, 2⟩ ∧
      (crawl ⟨"http://x.com", "http://x.com/a", "http://x.com", 20, 2⟩
        alwaysFailBrowser 10
        (initState ⟨"http://x.com", "http://x.com/a", "http://x.com", 20, 2⟩)).navAttempts
        = 3 ∧
      (crawl ⟨"http://x.com", "http://x.com/a", "http://x.com", 20, 2⟩
        alwaysFailBrowser 10
        (initState ⟨"http://x.com", "http://x.com/a", "http://x.com", 20, 2⟩)).failedRoutes
        = [⟨"http://x.com/a", "/a", "net::ERR_TIMEOUT", "Unknown", 3⟩] ∧
      (crawl ⟨"http://x.com", "http://x.com/a", "http://x.com", 20, 2⟩
        alwaysFailBrowser 10
        (initState ⟨"http://x.com", "http://x.com/a", "http://x.com", 20, 2⟩)).queue
        = [] := by
  refine ⟨by decide, by decide, by decide, by decide⟩

/-! ### Claim C4: the browser session is not released on every exit path -/

/-- C4 (code bug): `explore()` has no try/finally around the crawl, so when
`browser.newContext` throws after `chromium.launch` succeeded (e.g. the
configured `storageState` names a missing file), the error propagates out of
`explore()` with the browser still open: the launched session is never
closed.  On the happy path (no setup failure) the session is closed. -/
theorem c4_session_leak_on_context_failure :
    (explore ghostCfg ghostBrowser
        ⟨none, some "ENOENT: storageState file not found", none⟩ 5).browserLaunched
        = true ∧
      (explore ghostCfg ghostBrowser
        ⟨none, some "ENOENT: storageState file not found", none⟩ 5).browserClosed
        = false ∧
      (explore ghostCfg ghostBrowser
        ⟨none, some "ENOENT: storageState file not found", none⟩ 5).outcome
        = Except.error "ENOENT: storageState file not found" ∧
      (explore ghostCfg ghostBrowser ⟨none, none, none⟩ 5).browserClosed = true :=
  ⟨rfl, rfl, rfl, rfl⟩

/-! ### Claim C5: the page budget -/

theorem processLink_same (cfg : ExplorerCfg) (s : CrawlState) (l : String) :
    (processLink cfg s l).routes = s.routes ∧
      (processLink cfg s l).visited = s.visited ∧
      (processLink cfg s l).failedRoutes = s.failedRoutes ∧
      (processLink cfg s l).retryAttempts = s.retryAttempts ∧
      (processLink cfg s l).navigationStructure = s.navigationStructure ∧
      (processLink cfg s l).succeeded = s.succeeded ∧
      (processLink cfg s l).navAttempts = s.navAttempts := by
  unfold processLink
  split
  · exact ⟨rfl, rfl, rfl, rfl, rfl, rfl, rfl⟩
  · split
    · exact ⟨rfl, rfl, rfl, rfl, rfl, rfl, rfl⟩
    · split
      · exact ⟨rfl, rfl, rfl, rfl, rfl, rfl, rfl⟩
      · exact ⟨rfl, rfl, rfl, rfl, rfl, rfl, rfl⟩

theorem foldl_processLink_same (cfg : ExplorerCfg) (links : List String)
    (s : CrawlState) :
    (links.foldl (processLink cfg) s).routes = s.routes ∧
      (links.foldl (processLink cfg) s).visited = s.visited ∧
      (links.foldl (processLink cfg) s).failedRoutes = s.failedRoutes ∧
      (links.foldl (processLink cfg) s).retryAttempts = s.retryAttempts ∧
      (links.foldl (processLink cfg) s).navigationStructure = s.navigationStructure ∧
      (links.foldl (processLink cfg) s).succeeded = s.succeeded ∧
      (links.foldl (processLink cfg) s).navAttempts = s.navAttempts := by
  induction links generalizing s with
  | nil => exact ⟨rfl, rfl, rfl, rfl, rfl, rfl, rfl⟩
  | cons l rest ih =>
    rw [List.foldl_cons]
    obtain ⟨h1, h2, h3, h4, h5, h6, h7⟩ := ih (processLink cfg s l)
    obtain ⟨g1, g2, g3, g4, g5, g6, g7⟩ := processLink_same cfg s l
    exact ⟨h1.trans g1, h2.trans g2, h3.trans g3, h4.trans g4, h5.trans g5,
           h6.trans g6, h7.trans g7⟩

theorem step_routes_le (cfg : ExplorerCfg) (b : Browser) (s : CrawlState) :
    (step cfg b s).routes.length ≤ s.routes.length + 1 := by
  unfold step
  split
  · exact Nat.le_succ _
  next url rest hq =>
    split
    · exact Nat.le_succ _
    · split
      · rw [(foldl_processLink_same cfg _ _).1]
        split <;> simp
      · split
        · exact Nat.le_succ _
        · exact Nat.le_succ _

theorem loopCond_lt {cfg : ExplorerCfg} {s : CrawlState}
    (h : loopCond cfg s = true) : s.routes.length < cfg.maxPages := by
  unfold loopCond at h
  rcases Bool.and_eq_true_iff.1 h with ⟨_, h2⟩
  exact of_decide_eq_true h2

theorem crawl_routes_le (cfg : ExplorerCfg) (b : Browser) (fuel : Nat)
    (s : CrawlState) (h : s.routes.length ≤ cfg.maxPages) :
    (crawl cfg b fuel s).routes.length ≤ cfg.maxPages := by
  induction fuel generalizing s with
  | zero => exact h
  | succ n ih =>
    unfold crawl
    split
    next hc =>
      apply ih
      have := loopCond_lt hc
      have hs := step_routes_le cfg b s
      omega
    · exact h

/-- C5 (confirmed): with any configured positive `maxPages = m`, the
constructor stores `m`, at every point of the crawl (any fuel prefix of the
loop) at most `m` routes have been discovered, and dequeuing an
already-visited URL changes neither the discovered routes nor the visited
set — it consumes no budget. -/
theorem c5_maxPages_bound (o : ExplorerOptions) (cfg : ExplorerCfg) (b : Browser)
    (m : Nat) (hm : o.maxPages = some m) (hm1 : 1 ≤ m)
    (hmk : mkExplorer o = some cfg) :
    cfg.maxPages = m ∧
      (∀ fuel, (crawl cfg b fuel (initState cfg)).routes.length ≤ m) ∧
      (∀ s : CrawlState, ∀ url rest, s.queue = url :: rest → url ∈ s.visited →
        (step cfg b s).routes = s.routes ∧ (step cfg b s).visited = s.visited) := by
  have hmp : cfg.maxPages = m := by
    unfold mkExplorer at hmk
    cases hu : URL.parse o.startUrl with
    | none => rw [hu] at hmk; cases hmk
    | some r =>
      rw [hu] at hmk
      cases hmk
      rw [hm]
      cases m with
      | zero => cases hm1
      | succ n => rfl
  refine ⟨hmp, ?_, ?_⟩
  · intro fuel
    rw [← hmp]
    exact crawl_routes_le cfg b fuel _ (Nat.zero_le _)
  · intro s url rest hq hvis
    unfold step
    rw [hq]
    dsimp only
    rw [if_pos hvis]
    exact ⟨rfl, rfl⟩

/-- Closed witness for `c5_maxPages_bound` at `maxPages = 1`. -/
theorem c5_witness :
    (crawl ⟨"http://x.com", "http://x.com/", "http://x.com", 1, 2⟩ ghostBrowser 3
      (initState ⟨"http://x.com", "http://x.com/", "http://x.com", 1, 2⟩)).routes.length ≤ 1 :=
  (c5_maxPages_bound ⟨"http://x.com", "http://x.com/", some 1, none⟩
    ⟨"http://x.com", "http://x.com/", "http://x.com", 1, 2⟩ ghostBrowser 1
    rfl (by decide) (by decide)).2.1 3

/-! ### The crawl invariant (claims C6 and C8) -/

theorem isInternal_some {d u : String} (h : isInternal d u = true) :
    ∃ r, URL.parse u = some r ∧ r.origin = d := by
  unfold isInternal at h
  cases hu : URL.parse u with
  | none => rw [hu] at h; cases h
  | some r =>
    rw [hu] at h
    exact ⟨r, rfl, beq_iff_eq.1 h⟩

theorem origin_congr {r1 r2 : URLRec} (hs : r1.scheme = r2.scheme)
    (hh : r1.host = r2.host) : r1.origin = r2.origin := by
  unfold URLRec.origin
  rw [hs, hh]

/-- The invariant maintained by every crawl step.  It records: every skipped
URL fired the guard and is internal; every frontier URL is a parseable URL on
the exploration domain and (except possibly the seed) guard-negative; the
same for recorded failures, which moreover stay visited with an exhausted
retry budget, and a failed seed implies no page ever succeeded; every
discovered route is a slash-headed path whose re-anchoring is guard-negative
when the seed is; links are only recorded once a page succeeded; before the
first success the frontier holds only the seed; after a success the seed is
permanently visited; and every guard-positive internal link of a succeeded
page has been recorded in skippedLogoutRoutes. -/
def Inv (cfg : ExplorerCfg) (b : Browser) (s : CrawlState) : Prop :=
  (∀ x ∈ s.skippedLogoutRoutes, shouldSkipRoute x = true ∧
     ∃ r, URL.parse x = some r ∧ r.origin = cfg.explorationDomain) ∧
  (∀ u ∈ s.queue, (∃ r, URL.parse u = some r ∧ r.origin = cfg.explorationDomain) ∧
     (shouldSkipRoute u = false ∨ u = cfg.startUrl)) ∧
  (∀ f ∈ s.failedRoutes,
     (∃ r, URL.parse f.url = some r ∧ r.origin = cfg.explorationDomain) ∧
     (shouldSkipRoute f.url = false ∨ f.url = cfg.startUrl) ∧
     f.url ∈ s.visited ∧ cfg.maxRetries ≤ getRA s.retryAttempts f.url ∧
     (f.url = cfg.startUrl → s.routes = [])) ∧
  (∀ p ∈ s.routes, (∃ t, p.data = '/' :: t) ∧
     (shouldSkipRoute cfg.startUrl = false →
        shouldSkipRoute (cfg.explorationDomain ++ p) = false)) ∧
  (s.skippedLogoutRoutes ≠ [] → s.routes ≠ []) ∧
  (s.routes = [] → ∀ u ∈ s.queue, u = cfg.startUrl) ∧
  (s.routes ≠ [] → cfg.startUrl ∈ s.visited) ∧
  (∀ u ∈ s.succeeded, ∀ l ∈ b.links u,
     isInternal cfg.explorationDomain l = true → shouldSkipRoute l = true →
     l ∈ s.skippedLogoutRoutes)

/-- Per-link behavior of `processLink`: the queue and skip list only grow, by
elements with the stated properties, and a guard-positive internal link is
recorded. -/
theorem processLink_ext (cfg : ExplorerCfg) (s : CrawlState) (l : String)
    (hnn : cfg.explorationDomain ≠ "null") :
    (∃ eq, (processLink cfg s l).queue = s.queue ++ eq ∧
      ∀ u ∈ eq, (∃ r, URL.parse u = some r ∧ r.origin = cfg.explorationDomain) ∧
        shouldSkipRoute u = false) ∧
    (∃ es, (processLink cfg s l).skippedLogoutRoutes = s.skippedLogoutRoutes ++ es ∧
      ∀ x ∈ es, shouldSkipRoute x = true ∧ isInternal cfg.explorationDomain x = true) ∧
    (isInternal cfg.explorationDomain l = true → shouldSkipRoute l = true →
      l ∈ (processLink cfg s l).skippedLogoutRoutes) := by
  unfold processLink
  split
  next hint =>
    refine ⟨⟨[], by simp, by simp⟩, ⟨[], by simp, by simp⟩, ?_⟩
    intro hint2 _
    rw [hint2] at hint
    simp at hint
  next hint =>
    have hinternal : isInternal cfg.explorationDomain l = true := by
      cases hi : isInternal cfg.explorationDomain l
      · rw [hi] at hint; simp at hint
      · rfl
    split
    next hguard =>
      refine ⟨⟨[], by simp, by simp⟩, ⟨[l], rfl, ?_⟩, ?_⟩
      · intro x hx
        rcases List.mem_singleton.1 hx with rfl
        exact ⟨hguard, hinternal⟩
      · intro _ _
        exact List.mem_append_right _ (List.mem_singleton.2 rfl)
    next hguard =>
      have hgf : shouldSkipRoute l = false := by
        cases hg : shouldSkipRoute l
        · rfl
        · exact absurd hg hguard
      obtain ⟨rl, hrl, horl⟩ := isInternal_some hinternal
      have hrlnn : rl.origin ≠ "null" := by rw [horl]; exact hnn
      have hfull : URL.parse (cfg.explorationDomain ++ pathOr l) =
          some ⟨rl.scheme, rl.host, rl.pathname, "", ""⟩ := by
        have hpo : pathOr l = rl.pathname := by unfold pathOr; rw [hrl]
        rw [hpo, ← horl]
        exact parse_origin_pathname hrl hrlnn
      have horig2 : URLRec.origin ⟨rl.scheme, rl.host, rl.pathname, "", ""⟩ =
          cfg.explorationDomain := by
        rw [← horl]
        exact origin_congr rfl rfl
      have hgfull : shouldSkipRoute (cfg.explorationDomain ++ pathOr l) = false := by
        cases hg : shouldSkipRoute (cfg.explorationDomain ++ pathOr l)
        · rfl
        · exfalso
          have hpo : pathOr l = rl.pathname := by unfold pathOr; rw [hrl]
          rw [hpo, ← horl] at hg
          have := shouldSkip_resolve hrl hrlnn hg
          rw [this] at hgf
          cases hgf
      split
      next hvis =>
        refine ⟨⟨[], by simp, by simp⟩, ⟨[], by simp, by simp⟩, ?_⟩
        intro _ hg
        rw [hg] at hgf
        cases hgf
      next hvis =>
        refine ⟨⟨[cfg.explorationDomain ++ pathOr l], rfl, ?_⟩,
          ⟨[], by simp, by simp⟩, ?_⟩
        · intro u hu
          rcases List.mem_singleton.1 hu with rfl
          exact ⟨⟨_, hfull, horig2⟩, hgfull⟩
        · intro _ hg
          rw [hg] at hgf
          cases hgf

/-- Fold version of `processLink_ext` over all collected links. -/
theorem foldl_processLink_ext (cfg : ExplorerCfg) (links : List String)
    (s0 : CrawlState) (hnn : cfg.explorationDomain ≠ "null") :
    (∃ eq, (links.foldl (processLink cfg) s0).queue = s0.queue ++ eq ∧
      ∀ u ∈ eq, (∃ r, URL.parse u = some r ∧ r.origin = cfg.explorationDomain) ∧
        shouldSkipRoute u = false) ∧
    (∃ es, (links.foldl (processLink cfg) s0).skippedLogoutRoutes =
        s0.skippedLogoutRoutes ++ es ∧
      ∀ x ∈ es, shouldSkipRoute x = true ∧ isInternal cfg.explorationDomain x = true) ∧
    (∀ l ∈ links, isInternal cfg.explorationDomain l = true →
      shouldSkipRoute l = true →
      l ∈ (links.foldl (processLink cfg) s0).skippedLogoutRoutes) := by
  induction links generalizing s0 with
  | nil => exact ⟨⟨[], by simp, by simp⟩, ⟨[], by simp, by simp⟩, by simp⟩
  | cons l rest ih =>
    rw [List.foldl_cons]
    obtain ⟨⟨eq1, heq1, hq1⟩, ⟨es1, hes1, hs1⟩, hc1⟩ := processLink_ext cfg s0 l hnn
    obtain ⟨⟨eq2, heq2, hq2⟩, ⟨es2, hes2, hs2⟩, hc2⟩ := ih (processLink cfg s0 l)
    refine ⟨⟨eq1 ++ eq2, ?_, ?_⟩, ⟨es1 ++ es2, ?_, ?_⟩, ?_⟩
    · rw [heq2, heq1, List.append_assoc]
    · intro u hu
      rcases List.mem_append.1 hu with h | h
      · exact hq1 u h
      · exact hq2 u h
    · rw [hes2, hes1, List.append_assoc]
    · intro x hx
      rcases List.mem_append.1 hx with h | h
      · exact hs1 x h
      · exact hs2 x h
    · intro l2 hl2 hint hg
      rcases List.mem_cons.1 hl2 with rfl | hl2'
      · have hmem := hc1 hint hg
        rw [hes1] at hmem
        rw [hes2, hes1, List.append_assoc]
        rcases List.mem_append.1 hmem with h | h
        · exact List.mem_append_left _ h
        · exact List.mem_append_right _ (List.mem_append_left _ h)
      · exact hc2 l2 hl2' hint hg

/-- The invariant survives the success branch: the state after recording the
route and folding all links over `processLink`. -/
theorem inv_success_fold (cfg : ExplorerCfg) (b : Browser)
    (hnn : cfg.explorationDomain ≠ "null")
    (s : CrawlState) (url : String) (rest : List String)
    (hq : s.queue = url :: rest) (hvis : url ∉ s.visited)
    (hInv : Inv cfg b s) (base : CrawlState)
    (hbq : base.queue = rest) (hbv : base.visited = url :: s.visited)
    (hbr : base.routes = s.routes ++ [pathOr url])
    (hbs : base.skippedLogoutRoutes = s.skippedLogoutRoutes)
    (hbf : base.failedRoutes = s.failedRoutes)
    (hba : base.retryAttempts = s.retryAttempts)
    (hbu : base.succeeded = s.succeeded ++ [url]) :
    Inv cfg b ((b.links url).foldl (processLink cfg) base) := by
  obtain ⟨hS, hQ, hF, hR, hA, hB, hH, hU⟩ := hInv
  obtain ⟨⟨eq1, heq, hqp⟩, ⟨es1, hes, hsp⟩, hcomp⟩ :=
    foldl_processLink_ext cfg (b.links url) base hnn
  obtain ⟨hsr, hsv, hsf, hsa, hsn, hsu, _⟩ :=
    foldl_processLink_same cfg (b.links url) base
  obtain ⟨⟨ru, hru, horu⟩, hgu⟩ :=
    hQ url (by rw [hq]; exact List.mem_cons_self _ _)
  refine ⟨?_, ?_, ?_, ?_, ?_, ?_, ?_, ?_⟩
  · intro x hx
    rw [hes, hbs] at hx
    rcases List.mem_append.1 hx with h | h
    · exact hS x h
    · obtain ⟨hg, hi⟩ := hsp x h
      obtain ⟨r, hr, ho⟩ := isInternal_some hi
      exact ⟨hg, r, hr, ho⟩
  · intro u hu
    rw [heq, hbq] at hu
    rcases List.mem_append.1 hu with h | h
    · exact hQ u (by rw [hq]; exact List.mem_cons_of_mem _ h)
    · obtain ⟨hp, hg⟩ := hqp u h
      exact ⟨hp, Or.inl hg⟩
  · intro f hf
    rw [hsf, hbf] at hf
    obtain ⟨hp, hg, hv, ha, hseed⟩ := hF f hf
    refine ⟨hp, hg, ?_, ?_, ?_⟩
    · rw [hsv, hbv]
      exact List.mem_cons_of_mem _ hv
    · rw [hsa, hba]
      exact ha
    · intro hfs
      exfalso
      have hrz := hseed hfs
      have hus : url = cfg.startUrl :=
        hB hrz url (by rw [hq]; exact List.mem_cons_self _ _)
      apply hvis
      rw [hus, ← hfs]
      exact hv
  · intro p hp
    rw [hsr, hbr] at hp
    rcases List.mem_append.1 hp with h | h
    · exact hR p h
    · rcases List.mem_singleton.1 h with rfl
      have hpo : pathOr url = ru.pathname := by unfold pathOr; rw [hru]
      have hnru : ru.origin ≠ "null" := by rw [horu]; exact hnn
      constructor
      · rw [hpo]
        exact parse_pathname_slash hru hnru
      · intro hgs
        have hgurl : shouldSkipRoute url = false := by
          rcases hgu with h1 | h1
          · exact h1
          · rw [h1]; exact hgs
        cases hg : shouldSkipRoute (cfg.explorationDomain ++ pathOr url)
        · rfl
        · exfalso
          rw [hpo, ← horu] at hg
          have := shouldSkip_resolve hru hnru hg
          rw [this] at hgurl
          cases hgurl
  · intro _
    rw [hsr, hbr]
    simp
  · intro hz
    exfalso
    rw [hsr, hbr] at hz
    simp at hz
  · intro _
    rw [hsv, hbv]
    by_cases hus : url = cfg.startUrl
    · rw [← hus]
      exact List.mem_cons_self _ _
    · rcases hrs : s.routes with _ | ⟨p, ps⟩
      · exact absurd (hB hrs url (by rw [hq]; exact List.mem_cons_self _ _)) hus
      · exact List.mem_cons_of_mem _ (hH (by rw [hrs]; simp))
  · intro u hu l hl hint hg
    rw [hsu, hbu] at hu
    rcases List.mem_append.1 hu with h | h
    · have hmem := hU u h l hl hint hg
      rw [hes, hbs]
      exact List.mem_append_left _ hmem
    · rcases List.mem_singleton.1 h with rfl
      exact hcomp l hl hint hg

/-- One crawl step preserves the invariant. -/
theorem inv_step (cfg : ExplorerCfg) (b : Browser)
    (hnn : cfg.explorationDomain ≠ "null") (s : CrawlState)
    (h : Inv cfg b s) : Inv cfg b (step cfg b s) := by
  obtain ⟨hS, hQ, hF, hR, hA, hB, hH, hU⟩ := h
  unfold step
  split
  · exact ⟨hS, hQ, hF, hR, hA, hB, hH, hU⟩
  next url rest hq =>
    split
    next hvis =>
      refine ⟨hS, ?_, hF, hR, hA, ?_, hH, hU⟩
      · intro u hu
        exact hQ u (by rw [hq]; exact List.mem_cons_of_mem _ hu)
      · intro hz u hu
        exact hB hz u (by rw [hq]; exact List.mem_cons_of_mem _ hu)
    next hvis =>
      split
      · -- navigation success
        cases hne : b.navExtract url with
        | some nd =>
          exact inv_success_fold cfg b hnn s url rest hq hvis
            ⟨hS, hQ, hF, hR, hA, hB, hH, hU⟩ _ rfl rfl rfl rfl rfl rfl rfl
        | none =>
          exact inv_success_fold cfg b hnn s url rest hq hvis
            ⟨hS, hQ, hF, hR, hA, hB, hH, hU⟩ _ rfl rfl rfl rfl rfl rfl rfl
      next e henv =>
        have hve : (url :: s.visited).erase url = s.visited :=
          List.erase_cons_head url s.visited
        split
        next hlt =>
          -- retry: re-enqueue, un-visit, bump the attempt count
          refine ⟨hS, ?_, ?_, hR, hA, ?_, ?_, hU⟩
          · intro u hu
            rcases List.mem_append.1 hu with h1 | h1
            · exact hQ u (by rw [hq]; exact List.mem_cons_of_mem _ h1)
            · rcases List.mem_singleton.1 h1 with rfl
              exact hQ u (by rw [hq]; exact List.mem_cons_self _ _)
          · intro f hf
            obtain ⟨hp, hg, hv, ha, hseed⟩ := hF f hf
            refine ⟨hp, hg, ?_, ?_, hseed⟩
            · rw [hve]
              exact hv
            · by_cases hfu : f.url = url
              · exfalso
                rw [hfu] at ha
                omega
              · rw [getRA_putA_ne _ _ (fun hc => hfu hc.symm)]
                exact ha
          · intro hz u hu
            rcases List.mem_append.1 hu with h1 | h1
            · exact hB hz u (by rw [hq]; exact List.mem_cons_of_mem _ h1)
            · rcases List.mem_singleton.1 h1 with rfl
              exact hB hz u (by rw [hq]; exact List.mem_cons_self _ _)
          · intro hr
            rw [hve]
            exact hH hr
        next hge =>
          -- retries exhausted: record the FailedRoute
          have hle : cfg.maxRetries ≤ getRA s.retryAttempts url :=
            Nat.le_of_not_lt hge
          refine ⟨hS, ?_, ?_, hR, hA, ?_, ?_, hU⟩
          · intro u hu
            exact hQ u (by rw [hq]; exact List.mem_cons_of_mem _ hu)
          · intro f hf
            rcases List.mem_append.1 hf with h1 | h1
            · obtain ⟨hp, hg, hv, ha, hseed⟩ := hF f h1
              exact ⟨hp, hg, List.mem_cons_of_mem _ hv, ha, hseed⟩
            · rcases List.mem_singleton.1 h1 with rfl
              refine ⟨(hQ url (by rw [hq]; exact List.mem_cons_self _ _)).1,
                (hQ url (by rw [hq]; exact List.mem_cons_self _ _)).2,
                List.mem_cons_self _ _, ?_, ?_⟩
              · exact hle
              · intro hus
                have hus2 : url = cfg.startUrl := hus
                rcases hrs : s.routes with _ | ⟨p, ps⟩
                · rfl
                · exfalso
                  apply hvis
                  rw [hus2]
                  exact hH (by rw [hrs]; simp)
          · intro hz u hu
            exact hB hz u (by rw [hq]; exact List.mem_cons_of_mem _ hu)
          · intro hr
            exact List.mem_cons_of_mem _ (hH hr)

/-- The invariant holds in the constructor-seeded initial state. -/
theorem inv_init (o : ExplorerOptions) (cfg : ExplorerCfg) (b : Browser)
    (hmk : mkExplorer o = some cfg) : Inv cfg b (initState cfg) := by
  unfold mkExplorer at hmk
  cases hu : URL.parse o.startUrl with
  | none => rw [hu] at hmk; cases hmk
  | some r0 =>
    rw [hu] at hmk
    cases hmk
    refine ⟨?_, ?_, ?_, ?_, ?_, ?_, ?_, ?_⟩
    · intro x hx; cases hx
    · intro u hu2
      rcases List.mem_singleton.1 hu2 with rfl
      exact ⟨⟨r0, hu, rfl⟩, Or.inr rfl⟩
    · intro f hf; cases hf
    · intro p hp; cases hp
    · intro hz; exact absurd rfl hz
    · intro _ u hu2
      exact List.mem_singleton.1 hu2
    · intro hz; exact absurd rfl hz
    · intro u hu2; cases hu2

/-- The invariant holds after any number of crawl iterations. -/
theorem inv_crawl (cfg : ExplorerCfg) (b : Browser)
    (hnn : cfg.explorationDomain ≠ "null") (fuel : Nat) (s : CrawlState)
    (h : Inv cfg b s) : Inv cfg b (crawl cfg b fuel s) := by
  induction fuel generalizing s with
  | zero => exact h
  | succ n ih =>
    unfold crawl
    split
    · exact ih _ (inv_step cfg b hnn s h)
    · exact h

theorem slash_head_not_parseable {y : String} (h1 : ∃ t, y.data = '/' :: t)
    (h2 : ∃ r, URL.parse y = some r) : False := by
  obtain ⟨t, hy⟩ := h1
  obtain ⟨r, hr⟩ := h2
  have hr2 : parseChars y.data = some r := hr
  obtain ⟨c0, t0, hy2, ha⟩ := parse_head_alpha hr2
  have hcons := hy.symm.trans hy2
  injection hcons with hc _
  rw [← hc] at ha
  exact absurd ha (by decide)

/-! ### Claim C6: the three report collections are pairwise disjoint -/

/-- C6 (confirmed): at any point of any run (in particular in the final
report), no string occurs in two of discoveredRoutes, failedRoutes (compared
by their `url` field) and skippedLogoutRoutes.  Discovered routes are bare
slash-headed paths while failed URLs and skipped links are absolute URLs; a
failed URL can never coincide with a skipped link because every enqueued
non-seed URL is guard-negative, and a finally-failed seed means no page ever
succeeded, hence nothing was ever skipped. -/
theorem c6_report_disjoint (o : ExplorerOptions) (cfg : ExplorerCfg) (b : Browser)
    (hmk : mkExplorer o = some cfg) (hnn : cfg.explorationDomain ≠ "null")
    (fuel : Nat) (x : String) :
    ¬(x ∈ (buildReport cfg (crawl cfg b fuel (initState cfg))).discoveredRoutes ∧
        x ∈ (buildReport cfg (crawl cfg b fuel (initState cfg))).failedRoutes.map
          (fun f => f.url)) ∧
      ¬(x ∈ (buildReport cfg (crawl cfg b fuel (initState cfg))).discoveredRoutes ∧
        x ∈ (buildReport cfg (crawl cfg b fuel (initState cfg))).skippedLogoutRoutes) ∧
      ¬(x ∈ (buildReport cfg (crawl cfg b fuel (initState cfg))).failedRoutes.map
          (fun f => f.url) ∧
        x ∈ (buildReport cfg (crawl cfg b fuel (initState cfg))).skippedLogoutRoutes) := by
  obtain ⟨hS, hQ, hF, hR, hA, hB, hH, hU⟩ :=
    inv_crawl cfg b hnn fuel _ (inv_init o cfg b hmk)
  refine ⟨?_, ?_, ?_⟩
  · rintro ⟨hd, hfu⟩
    obtain ⟨f, hf, hfx⟩ := List.mem_map.1 hfu
    obtain ⟨hp, _, _, _, _⟩ := hF f hf
    rw [hfx] at hp
    obtain ⟨r, hr, _⟩ := hp
    exact slash_head_not_parseable (hR x hd).1 ⟨r, hr⟩
  · rintro ⟨hd, hsk⟩
    obtain ⟨_, r, hr, _⟩ := hS x (mem_dedupFirst.1 hsk)
    exact slash_head_not_parseable (hR x hd).1 ⟨r, hr⟩
  · rintro ⟨hfu, hsk⟩
    obtain ⟨f, hf, hfx⟩ := List.mem_map.1 hfu
    have hsk2 := mem_dedupFirst.1 hsk
    have hgx : shouldSkipRoute x = true := (hS x hsk2).1
    obtain ⟨_, hg, _, _, hseed⟩ := hF f hf
    rcases hg with hg | hg
    · rw [hfx, hgx] at hg
      cases hg
    · have hroutes : (crawl cfg b fuel (initState cfg)).routes = [] :=
        hseed hg
      have hne : (crawl cfg b fuel (initState cfg)).skippedLogoutRoutes ≠ [] :=
        List.ne_nil_of_mem hsk2
      exact absurd hroutes (hA hne)

/-- Closed witness for `c6_report_disjoint` at a concrete run. -/
theorem c6_witness :
    ¬("/" ∈ (buildReport ghostCfg (crawl ghostCfg ghostBrowser 3
          (initState ghostCfg))).discoveredRoutes ∧
      "/" ∈ (buildReport ghostCfg (crawl ghostCfg ghostBrowser 3
          (initState ghostCfg))).failedRoutes.map (fun f => f.url)) :=
  (c6_report_disjoint ⟨"http://x.com", "http://x.com/", none, none⟩ ghostCfg
    ghostBrowser (by decide) (by decide) 3 "/").1

/-! ### Claim C8: logout links are skipped, recorded once, never discovered -/

/-- C8 (confirmed): in any run whose start URL does not itself fire the
logout guard, (a) every discovered route re-anchored at the exploration
domain is guard-negative — so a guard-positive link such as
"/account/logout" never appears (as a route) in discoveredRoutes; (b, c) the
report's skippedLogoutRoutes is duplicate-free, each URL occurring at most
once; (d) everything in it fired the guard; and (e) every guard-positive
internal link referenced by any successfully crawled page does appear in the
report's skippedLogoutRoutes (hence exactly once, by (c)). -/
theorem c8_logout_guard (o : ExplorerOptions) (cfg : ExplorerCfg) (b : Browser)
    (hmk : mkExplorer o = some cfg) (hnn : cfg.explorationDomain ≠ "null")
    (hgs : shouldSkipRoute cfg.startUrl = false) (fuel : Nat) :
    (∀ p ∈ (buildReport cfg (crawl cfg b fuel (initState cfg))).discoveredRoutes,
        shouldSkipRoute (cfg.explorationDomain ++ p) = false) ∧
      (buildReport cfg (crawl cfg b fuel (initState cfg))).skippedLogoutRoutes.Nodup ∧
      (∀ x, ((buildReport cfg (crawl cfg b fuel
          (initState cfg))).skippedLogoutRoutes).count x ≤ 1) ∧
      (∀ x ∈ (buildReport cfg (crawl cfg b fuel (initState cfg))).skippedLogoutRoutes,
        shouldSkipRoute x = true) ∧
      (∀ u ∈ (crawl cfg b fuel (initState cfg)).succeeded, ∀ l ∈ b.links u,
        isInternal cfg.explorationDomain l = true → shouldSkipRoute l = true →
        l ∈ (buildReport cfg (crawl cfg b fuel (initState cfg))).skippedLogoutRoutes) := by
  obtain ⟨hS, hQ, hF, hR, hA, hB, hH, hU⟩ :=
    inv_crawl cfg b hnn fuel _ (inv_init o cfg b hmk)
  refine ⟨?_, nodup_dedupFirst _, ?_, ?_, ?_⟩
  · intro p hp
    exact (hR p hp).2 hgs
  · intro x
    exact count_dedupFirst_le_one _ x
  · intro x hx
    exact (hS x (mem_dedupFirst.1 hx)).1
  · intro u hu l hl hint hg
    exact mem_dedupFirst.2 (hU u hu l hl hint hg)

/-- Browser oracle for the C8 witness run: both crawled pages reference the
logout link "http://x.com/account/logout". -/
def logoutBrowser : Browser :=
  ⟨fun _ _ => none,
   fun u => if u = "http://x.com/" then
      ["http://x.com/a", "http://x.com/account/logout"]
    else ["http://x.com/account/logout"],
   fun _ => none⟩

/-- Closed witness for `c8_logout_guard`: the logout link referenced from two
pages ends up exactly once in the report's skippedLogoutRoutes and its path
is not among the discovered routes. -/
theorem c8_witness :
    (∀ x, ((buildReport ⟨"http://x.com", "http://x.com/", "http://x.com", 20, 2⟩
        (crawl ⟨"http://x.com", "http://x.com/", "http://x.com", 20, 2⟩
          logoutBrowser 5
          (initState ⟨"http://x.com", "http://x.com/", "http://x.com", 20, 2⟩))).skippedLogoutRoutes).count
        x ≤ 1) ∧
      (buildReport ⟨"http://x.com", "http://x.com/", "http://x.com", 20, 2⟩
        (crawl ⟨"http://x.com", "http://x.com/", "http://x.com", 20, 2⟩
          logoutBrowser 5
          (initState ⟨"http://x.com", "http://x.com/", "http://x.com", 20, 2⟩))).skippedLogoutRoutes
        = ["http://x.com/account/logout"] ∧
      (buildReport ⟨"http://x.com", "http://x.com/", "http://x.com", 20, 2⟩
        (crawl ⟨"http://x.com", "http://x.com/", "http://x.com", 20, 2⟩
          logoutBrowser 5
          (initState ⟨"http://x.com", "http://x.com/", "http://x.com", 20, 2⟩))).discoveredRoutes
        = ["/", "/a"] :=
  ⟨(c8_logout_guard ⟨"http://x.com", "http://x.com/", none, none⟩
      ⟨"http://x.com", "http://x.com/", "http://x.com", 20, 2⟩ logoutBrowser
      (by decide) (by decide) (by decide) 5).2.2.1,
   by decide, by decide⟩

end RouteExplorer
